import Mathlib

/-!
Verification development for the DevQuest in-memory shell / git simulation
(`src/services/gitEngine.ts`, `src/services/terminalRenderer.ts`, types from
`types.ts`).  The TypeScript engine is shallowly embedded: JavaScript objects
used as string-keyed maps become association lists (insertion-ordered, like JS
objects), `undefined`/`null` become `Option`, JS truthiness on strings is made
explicit, `Date.now()` / `uuidv4()` / locale-dependent date formatting become
fields of an explicit context `RunCtx`, and `JSON.parse(JSON.stringify x)`
deep copies are the identity on the purely functional values.  Commit
`treeSnapshot` / stash `fileSnapshot` fields (JSON strings in the source) are
stored as the serialized tree itself, since serialization round-trips.
-/

namespace DevQuest

/-! ## JS-style helpers -/

/-- Association-list lookup: first binding wins, mirroring JS property lookup. -/
def alookup {α : Type} : List (String × α) → String → Option α
  | [], _ => none
  | (k, v) :: rest, key => if k = key then some v else alookup rest key

/-- Mirror of a JS `obj[key] = value` assignment: replace the first binding in
place if the key is present, otherwise append (insertion order preserved). -/
def aset {α : Type} : List (String × α) → String → α → List (String × α)
  | [], key, v => [(key, v)]
  | (k, w) :: rest, key, v =>
    if k = key then (k, v) :: rest else (k, w) :: aset rest key v

/-- Mirror of JS `delete obj[key]`. -/
def aerase {α : Type} : List (String × α) → String → List (String × α)
  | [], _ => []
  | (k, w) :: rest, key => if k = key then aerase rest key else (k, w) :: aerase rest key

/-- JS truthiness of a possibly-undefined string (`undefined`, `null` and the
empty string are falsy). -/
def otruthy : Option String → Bool
  | some s => s ≠ ""
  | none => false

/-- Mirror of the JS idiom `x || d` on a possibly-undefined string. -/
def jsOrStr (o : Option String) (d : String) : String :=
  match o with
  | some s => if s = "" then d else s
  | none => d

/-- Mirror of the JS idiom `x || d` on a possibly-undefined number
(`NaN` is represented by `none`; `0` is falsy). -/
def jsOrInt (o : Option Int) (d : Int) : Int :=
  match o with
  | some n => if n = 0 then d else n
  | none => d

/-- Whitespace test standing in for the JS regexp class `\s`. -/
def isWs (c : Char) : Bool := c.isWhitespace

/-- Structural split of a string at every occurrence of a character,
mirroring JS `s.split(sep)` for the single-character separators the engine
uses (`|`, `/`, `~`, newline); `""` splits to `[""]`, like in JS. -/
def splitChar (c : Char) (s : String) : List String :=
  go s.data []
where
  go : List Char → List Char → List String
    | [], acc => [String.mk acc.reverse]
    | x :: xs, acc => if x = c then String.mk acc.reverse :: go xs [] else go xs (x :: acc)

/-- Structural split at every character satisfying a test (used for `\s`). -/
def splitPred (p : Char → Bool) (s : String) : List String :=
  go s.data []
where
  go : List Char → List Char → List String
    | [], acc => [String.mk acc.reverse]
    | x :: xs, acc => if p x then String.mk acc.reverse :: go xs [] else go xs (x :: acc)

/-- Structural whitespace trim, mirroring JS `s.trim()`. -/
def jsTrim (s : String) : String :=
  String.mk (((s.data.dropWhile isWs).reverse.dropWhile isWs).reverse)

/-- Character-list test: does the first list start with the second? -/
def listHasPre : List Char → List Char → Bool
  | _, [] => true
  | [], _ :: _ => false
  | a :: as, b :: bs => a = b && listHasPre as bs

/-- Character-list test: does the second list occur inside the first
(substring containment, mirroring JS `String.prototype.includes`)? -/
def listHasSub : List Char → List Char → Bool
  | [], sub => sub.isEmpty
  | a :: as, sub => listHasPre (a :: as) sub || listHasSub as sub

/-- Mirror of JS `s.includes(sub)`. -/
def strHasSub (s sub : String) : Bool := listHasSub s.data sub.data

/-- Mirror of JS `s.startsWith(p)`. -/
def strStarts (s p : String) : Bool := listHasPre s.data p.data

/-- Mirror of JS `s.endsWith(p)`. -/
def strEnds (s p : String) : Bool := listHasPre s.data.reverse p.data.reverse

/-- Drop every `"` character, mirroring JS `s.replace(/"/g, '')`. -/
def dropQuotes (s : String) : String := String.mk (s.data.filter (· ≠ '"'))

/-- Clamp an `Int` index into `[0, len]`, the normalization JS string/array
functions apply to their arguments. -/
def clampIdx (i : Int) (len : Nat) : Nat :=
  if i < 0 then 0 else min i.toNat len

/-- Mirror of JS `String.prototype.substring` (negative/overflowing arguments
are clamped, and the two arguments are swapped when out of order). -/
def jsSubstring (s : String) (a b : Int) : String :=
  let la := clampIdx a s.data.length
  let lb := clampIdx b s.data.length
  let lo := min la lb
  let hi := max la lb
  String.mk ((s.data.drop lo).take (hi - lo))

/-- Mirror of JS `String.prototype.slice` with two arguments (negative indices
count from the end). -/
def jsSliceStr (s : String) (a b : Int) : String :=
  let len := s.data.length
  let lo := if a < 0 then clampIdx (len + a) len else clampIdx a len
  let hi := if b < 0 then clampIdx (len + b) len else clampIdx b len
  String.mk ((s.data.drop lo).take (hi - lo))

/-- Mirror of JS `Array.prototype.slice(start)` on lists. -/
def jsSliceFrom {α : Type} (l : List α) (a : Int) : List α :=
  let len := l.length
  let lo := if a < 0 then clampIdx (len + a) len else clampIdx a len
  l.drop lo

/-- Mirror of JS `Array.prototype.slice(0, stop)` on lists. -/
def jsSliceTo {α : Type} (l : List α) (b : Int) : List α :=
  let len := l.length
  let hi := if b < 0 then clampIdx (len + b) len else clampIdx b len
  l.take hi

/-- Numeric value of a list of decimal digit characters. -/
def digitsVal (l : List Char) : Nat :=
  l.foldl (fun acc c => acc * 10 + (c.toNat - '0'.toNat)) 0

/-- Mirror of JS `parseInt(s)` in base 10 (`none` is `NaN`). -/
def jsParseInt (s : String) : Option Int :=
  let l := s.data.dropWhile isWs
  let core := fun (l : List Char) (sign : Int) =>
    let ds := l.takeWhile Char.isDigit
    if ds.isEmpty then (none : Option Int) else some (sign * (digitsVal ds : Int))
  match l with
  | '-' :: rest => core rest (-1)
  | '+' :: rest => core rest 1
  | _ => core l 1

/-- Left-pad with a character, mirroring JS `padStart`. -/
def padStart (s : String) (w : Nat) (c : Char) : String :=
  String.mk (List.replicate (w - s.data.length) c) ++ s

/-- Right-pad with a character, mirroring JS `padEnd`. -/
def padEnd (s : String) (w : Nat) (c : Char) : String :=
  s ++ String.mk (List.replicate (w - s.data.length) c)

/-- Index of the first occurrence of an element, mirroring JS `indexOf`
(`none` for `-1`). -/
def idxOf {α : Type} [DecidableEq α] : List α → α → Option Nat
  | [], _ => none
  | a :: as, x =>
    if a = x then some 0 else (idxOf as x).map Nat.succ

/-- Element at an index, mirroring JS `arr[i]` (`none` for `undefined`). -/
def argGet {α : Type} (l : List α) (i : Nat) : Option α := l.get? i

/-- JS string coercion of a possibly-undefined value used as an object key or
in a template literal (`undefined` prints and keys as `"undefined"`). -/
def argStr (o : Option String) : String := o.getD "undefined"

/-- Mirror of JS `s.trim().split(/\s+/)`: after trimming, splitting an empty
string yields `[""]`, otherwise the whitespace-separated words. -/
def jsSplitWs (s : String) : List String :=
  let t := jsTrim s
  if t = "" then [""] else (splitPred isWs t).filter (· ≠ "")

/-- Stable insertion sort used in place of JS `Array.prototype.sort`
(comparator assumed total; only the sorted result is observable). -/
def insSort {α : Type} (le : α → α → Bool) : List α → List α
  | [] => []
  | x :: xs => insertSorted le x (insSort le xs)
where
  insertSorted (le : α → α → Bool) (x : α) : List α → List α
    | [] => [x]
    | y :: ys => if le x y then x :: y :: ys else y :: insertSorted le x ys

/-- First-occurrence deduplication, mirroring `[...new Set(l)]`. -/
def dedupFirst (l : List String) : List String := go l []
where
  go : List String → List String → List String
    | [], _ => []
    | x :: xs, seen => if x ∈ seen then go xs seen else x :: go xs (x :: seen)

/-! ## Command tokenizer

Mirror of `primaryCmd.match(/[^\s"]+|"([^"]*)"/g)?.map(a => a.replace(/^"|"$/g, ''))`.
The global regexp scan emits maximal runs of non-space non-quote characters and
quoted spans; an unterminated opening quote matches neither alternative, so the
scanner steps over it.  The recursion is fueled by the input length so that the
definition stays structurally recursive (kernel-computable); one unit of fuel
is consumed per character, so fuel `length + 1` never runs out. -/

/-- Split a character list at its first `"`: contents before it and remainder
after it. -/
def splitAtQuote : List Char → Option (List Char × List Char)
  | [] => none
  | c :: cs =>
    if c = '"' then some ([], cs)
    else match splitAtQuote cs with
      | some (a, b) => some (c :: a, b)
      | none => none

/-- One regexp-scan step per unit of fuel: emit raw tokens (quoted tokens keep
their surrounding quotes, as the regexp match does). -/
def tokenizeFuel : Nat → List Char → List String
  | 0, _ => []
  | _ + 1, [] => []
  | fuel + 1, c :: rest =>
    if isWs c then tokenizeFuel fuel rest
    else if c = '"' then
      match splitAtQuote rest with
      | some (inside, rest2) =>
        ("\"" ++ String.mk inside ++ "\"") :: tokenizeFuel fuel rest2
      | none => tokenizeFuel fuel rest
    else
      let tok := (c :: rest).takeWhile (fun d => !isWs d && d ≠ '"')
      let rest2 := (c :: rest).dropWhile (fun d => !isWs d && d ≠ '"')
      String.mk tok :: tokenizeFuel fuel rest2

/-- Mirror of `a.replace(/^"|"$/g, '')`: strip one leading and one trailing
quote character. -/
def stripTokenQuotes (t : String) : String :=
  let l := match t.data with
    | '"' :: r => r
    | l => l
  let l2 := if l.getLast? = some '"' then l.dropLast else l
  String.mk l2

/-- Tokenize a primary command into its argument list. -/
def tokenize (s : String) : List String :=
  (tokenizeFuel (s.data.length + 1) s.data).map stripTokenQuotes

/-! ## Filesystem model

`FileNode` from `types.ts`: `{ name, type, content?, children?, permissions?,
owner?, group?, size?, modified? }`.  The `children` map is a mutual inductive
association list (`FsList`) so that every traversal is structurally recursive.
In the source a `children` field exists exactly on directory nodes and
`content` is always read through `node.content || ''`, so `content` is a plain
string and "has a `children` field" is represented by `ty = directory`. -/

inductive NodeType where
  | file
  | directory
deriving DecidableEq, Repr

mutual
inductive FileNode where
  | mk (ty : NodeType) (name : String) (content : String) (children : FsList)
       (permissions : Option String) (owner : Option String) (group : Option String)
       (size : Option Nat) (modified : Option Nat)
deriving Repr

inductive FsList where
  | nil
  | cons (key : String) (node : FileNode) (rest : FsList)
deriving Repr
end

namespace FileNode

def ty : FileNode → NodeType
  | .mk t _ _ _ _ _ _ _ _ => t

def name : FileNode → String
  | .mk _ n _ _ _ _ _ _ _ => n

def content : FileNode → String
  | .mk _ _ c _ _ _ _ _ _ => c

def children : FileNode → FsList
  | .mk _ _ _ ch _ _ _ _ _ => ch

def permissions : FileNode → Option String
  | .mk _ _ _ _ p _ _ _ _ => p

def owner : FileNode → Option String
  | .mk _ _ _ _ _ o _ _ _ => o

def group : FileNode → Option String
  | .mk _ _ _ _ _ _ g _ _ => g

def size : FileNode → Option Nat
  | .mk _ _ _ _ _ _ _ s _ => s

def modified : FileNode → Option Nat
  | .mk _ _ _ _ _ _ _ _ m => m

/-- JS truthiness of `node.children`: the field exists exactly on directories. -/
def isDir (n : FileNode) : Bool := n.ty = .directory

/-- Replace the `content` field (plus the `size`/`modified` bookkeeping done at
each content write site is applied by the callers). -/
def withContent (n : FileNode) (c : String) : FileNode :=
  match n with
  | .mk t nm _ ch p o g s m => .mk t nm c ch p o g s m

def withChildren (n : FileNode) (ch : FsList) : FileNode :=
  match n with
  | .mk t nm c _ p o g s m => .mk t nm c ch p o g s m

def withSize (n : FileNode) (s : Option Nat) : FileNode :=
  match n with
  | .mk t nm c ch p o g _ m => .mk t nm c ch p o g s m

def withModified (n : FileNode) (m : Option Nat) : FileNode :=
  match n with
  | .mk t nm c ch p o g s _ => .mk t nm c ch p o g s m

def withPermissions (n : FileNode) (p : Option String) : FileNode :=
  match n with
  | .mk t nm c ch _ o g s m => .mk t nm c ch p o g s m

/-- A plain file node as created by `touch` / redirection. -/
def mkFile (nm c : String) (perms ow gr : Option String) (sz md : Option Nat) : FileNode :=
  .mk .file nm c .nil perms ow gr sz md

/-- A plain directory node as created by `mkdir`. -/
def mkDir (nm : String) (ch : FsList) (perms ow gr : Option String) (sz md : Option Nat) : FileNode :=
  .mk .directory nm "" ch perms ow gr sz md

end FileNode

namespace FsList

/-- JS property lookup on a `children` map. -/
def lookup : FsList → String → Option FileNode
  | .nil, _ => none
  | .cons k n rest, key => if k = key then some n else lookup rest key

/-- Mirror of `children[key] = node`. -/
def set : FsList → String → FileNode → FsList
  | .nil, key, v => .cons key v .nil
  | .cons k n rest, key, v =>
    if k = key then .cons k v rest else .cons k n (set rest key v)

/-- Mirror of `delete children[key]`. -/
def erase : FsList → String → FsList
  | .nil, _ => .nil
  | .cons k n rest, key =>
    if k = key then erase rest key else .cons k n (erase rest key)

/-- Mirror of `Object.keys(children)` (insertion order). -/
def keys : FsList → List String
  | .nil => []
  | .cons k _ rest => k :: keys rest

/-- Mirror of `Object.entries(children)` (insertion order). -/
def entries : FsList → List (String × FileNode)
  | .nil => []
  | .cons k n rest => (k, n) :: entries rest

def length (l : FsList) : Nat := l.keys.length

end FsList

/-- The whole filesystem: the top-level name-to-node map of `GameState.fileSystem`. -/
abbrev Fs := FsList

/-- The synthetic root wrapper `{ type: 'directory', name: 'root', children: fs }`
built inside `resolvePath`; its `children` alias the live filesystem map. -/
def rootNode (fs : Fs) : FileNode :=
  .mk .directory "root" "" fs none none none none none

/-- Node addressed by a list of child keys from the filesystem root (`[]` is
the synthetic root itself).  Paths produced by resolution always exist. -/
def getNode (fs : Fs) : List String → Option FileNode
  | [] => some (rootNode fs)
  | k :: ks =>
    match fs.lookup k with
    | some n => getNodeFrom n ks
    | none => none
where
  getNodeFrom (n : FileNode) : List String → Option FileNode
    | [] => some n
    | k :: ks =>
      match n.children.lookup k with
      | some c => getNodeFrom c ks
      | none => none

/-- In-place update of the node at a path, mirroring a JS mutation through the
alias returned by `resolvePath`.  Updating the synthetic root (path `[]`) is
lost, because the wrapper object is rebuilt on every call in the source. -/
def fsUpdate (fs : Fs) : List String → (FileNode → FileNode) → Fs
  | [], _ => fs
  | k :: ks, f =>
    match fs.lookup k with
    | some n => fs.set k (updFrom n ks f)
    | none => fs
where
  updFrom (n : FileNode) : List String → (FileNode → FileNode) → FileNode
    | [], f => f n
    | k :: ks, f =>
      match n.children.lookup k with
      | some c => n.withChildren (n.children.set k (updFrom c ks f))
      | none => n

/-- Mirror of `parent.children[name] = node` through the alias at `parentPath`
(the synthetic root's `children` alias the top-level map, so insertion there
is a real top-level insertion). -/
def fsInsert (fs : Fs) (parentPath : List String) (nm : String) (node : FileNode) : Fs :=
  match parentPath with
  | [] => fs.set nm node
  | _ :: _ => fsUpdate fs parentPath (fun p => p.withChildren (p.children.set nm node))

/-- Mirror of `delete parent.children[name]` through the alias at `parentPath`. -/
def fsEraseChild (fs : Fs) (parentPath : List String) (nm : String) : Fs :=
  match parentPath with
  | [] => fs.erase nm
  | _ :: _ => fsUpdate fs parentPath (fun p => p.withChildren (p.children.erase nm))

/-! ## Path resolution (`resolvePath`, gitEngine.ts)

The source returns aliases `{ parent, node, name }`; the embedding returns the
effective key paths of those aliases instead (`[]` is the synthetic root), and
the mutation helpers above replay writes through them. -/

structure Resolved where
  parent : Option (List String)
  node : Option (List String)
  name : String
deriving Repr

/-- The traversal loop of `resolvePath`: `.` and `..` segments are skipped
(`..` does NOT ascend in the source), a failed child lookup at the last
segment reports a missing node under the current parent, and a failed lookup
earlier reports an invalid path. -/
def resolveLoop (fs : Fs) (finalName : String) :
    List String → List String → Option (List String) → Resolved
  | [], cur, par => ⟨par, some cur, finalName⟩
  | p :: rest, cur, par =>
    if p = "." then resolveLoop fs finalName rest cur par
    else if p = ".." then resolveLoop fs finalName rest cur par
    else
      match getNode fs cur with
      | some n =>
        if n.isDir && (n.children.lookup p).isSome then
          resolveLoop fs finalName rest (cur ++ [p]) (some cur)
        else if rest.isEmpty then ⟨some cur, none, p⟩
        else ⟨none, none, p⟩
      | none =>
        if rest.isEmpty then ⟨some cur, none, p⟩ else ⟨none, none, p⟩

/-- Mirror of `resolvePath(fs, path, cwd)`. -/
def resolvePath (fs : Fs) (path : String) (cwd : String) : Resolved :=
  if path = "" then ⟨none, none, ""⟩
  else if path = "/" then ⟨none, some [], "root"⟩
  else
    let full := if strStarts path "/" then path else cwd ++ "/" ++ path
    let parts := (splitChar '/' full).filter (· ≠ "")
    resolveLoop fs (jsOrStr parts.getLast? "root") parts [] none

/-- Node alias carried by a `Resolved` (`r.node` in the source). -/
def resNode (fs : Fs) (r : Resolved) : Option FileNode :=
  r.node.bind (getNode fs)

/-- Parent alias carried by a `Resolved` (`r.parent` in the source). -/
def resParent (fs : Fs) (r : Resolved) : Option FileNode :=
  r.parent.bind (getNode fs)

/-! ## Engine data model (`types.ts`) -/

/-- `Commit` from `types.ts`; `treeSnapshot` stores the serialized filesystem
(JSON round-trip is the identity, so the tree itself is stored).  `parentId`
is `none` for JS `null`/`undefined`; a stored empty string (possible through
`revert`) is falsy on every read, matching the source's truthiness checks. -/
structure Commit where
  id : String
  message : String
  parentId : Option String
  mergeParentId : Option String := none
  timestamp : Nat
  author : String
  treeSnapshot : Fs
deriving Repr

inductive HeadType where
  | branch
  | commit
deriving DecidableEq, Repr

/-- `HEAD: { type: 'branch' | 'commit', ref }`. -/
structure Head where
  type : HeadType
  ref : String
deriving DecidableEq, Repr

structure RemoteRepo where
  url : String
  commits : List Commit
  branches : List (String × String)
deriving Repr

structure StashEntry where
  id : String
  staging : List String
  fileSnapshot : Fs
  message : String
  timestamp : Nat
deriving Repr

/-- `{ modified, deleted }` working-directory tracker. -/
structure WorkingDirectory where
  modified : List String
  deleted : List String
deriving DecidableEq, Repr

/-- `GitState` from `types.ts`.  The optional fields `stash`,
`workingDirectory` and `trackedFiles` (defaulted with `if (!x) x = ...` at
their use sites in the engine) are total here with `[]` / `⟨[], []⟩` standing
for the absent value; the source only ever distinguishes the absent value by
that defaulting, so the two are observationally equal. -/
structure GitState where
  commits : List Commit
  branches : List (String × String)
  HEAD : Head
  staging : List String
  repoInitialized : Bool
  remotes : List (String × RemoteRepo)
  workingDirectory : WorkingDirectory := ⟨[], []⟩
  trackedFiles : List String := []
  stash : List StashEntry := []
deriving Repr

/-- `GameState` from `types.ts`. -/
structure GameState where
  cwd : String
  commandHistory : List String
  envVariables : List (String × String)
  fileSystem : Fs
  git : GitState
  lastCommandOutput : Option String := none
  activeEditor : Option (String × String) := none
deriving Repr

/-- `INITIAL_STATE` from `gitEngine.ts`. -/
def INITIAL_STATE : GameState :=
  { cwd := "/project"
    commandHistory := []
    envVariables := []
    fileSystem :=
      .cons "project"
        (.mk .directory "project" ""
          (.cons "readme.md" (.mk .file "readme.md" "# My Project" .nil none none none none none) .nil)
          none none none none none)
        .nil
    git :=
      { commits := []
        branches := [("main", "")]
        HEAD := ⟨.branch, "main"⟩
        staging := []
        repoInitialized := false
        remotes := [] } }

/-! ## Command results and execution context -/

/-- Output classification (`'success' | 'error' | 'info' | 'git-status' | 'git-branch'`). -/
inductive OutType where
  | success
  | error
  | info
  | gitStatus
  | gitBranch
deriving DecidableEq, Repr

/-- Semantic line classification of `TerminalOutputLine`. -/
inductive LineType where
  | header
  | hint
  | staged
  | modified
  | untracked
  | deleted
  | normal
  | branch
  | branchCurrent
deriving DecidableEq, Repr

/-- `TerminalOutputLine` from `types.ts`. -/
structure TermLine where
  text : String
  type : LineType
  tooltip : Option String := none
deriving DecidableEq, Repr

/-- The `CommandResult` interface of `runSingleCommand`. -/
structure CommandResult where
  output : String
  type : OutType
  newState : GameState
  structured : Option (List TermLine) := none
deriving Repr

/-- The effectful context: `Date.now()`, a fresh `uuidv4().substring(0, 7)`
commit/stash id, and the locale- and timezone-dependent date renderings used
only to format output text. -/
structure RunCtx where
  now : Nat
  freshId : String
  monthShort : Nat → String
  dayOf : Nat → Nat
  hourOf : Nat → Nat
  minuteOf : Nat → Nat
  dateToString : Nat → String
  dateToLocale : Nat → String
  localeLe : String → String → Bool

/-- A concrete context for witness evaluation. -/
def ctx0 : RunCtx :=
  { now := 1700000000000
    freshId := "aaaa111"
    monthShort := fun _ => "Jan"
    dayOf := fun _ => 1
    hourOf := fun _ => 0
    minuteOf := fun _ => 0
    dateToString := fun _ => "Thu Jan 01 1970"
    dateToLocale := fun _ => "1/1/1970, 00:00:00"
    localeLe := fun a b => a ≤ b }

/-- A context with a chosen fresh id. -/
def ctxId (i : String) : RunCtx := { ctx0 with freshId := i }

/-! ## Terminal renderer (`terminalRenderer.ts`) -/

/-- The educational tooltip table `TOOLTIPS`. -/
def ttModified : String := "This file exists in your last commit but has been changed in your working directory. Use \x27git add\x27 to stage these changes."

def ttStaged : String := "This file is in the staging area and will be included in your next commit."

def ttNewFile : String := "This is a new file that has been staged and will be added to the repository in your next commit."

def ttUntracked : String := "Git doesn\x27t know about this file yet. Use \x27git add\x27 to start tracking it."

def ttDeleted : String := "This file has been deleted from your working directory but the deletion hasn\x27t been staged yet."

def ttWorkingDirectory : String := "Your actual files on disk - the files you edit directly."

def ttStagingArea : String := "A preparation area where you build up changes for your next commit."

def ttBranch : String := "A branch is an independent line of development. You can create branches to work on features without affecting the main codebase."

def ttUpToDate : String := "Your local branch has the same commits as the remote branch - no push or pull needed."

def ttAhead : String := "Your local branch has commits that haven\x27t been pushed to the remote yet."

-- The helper `collectFiles` from `renderGitStatus`: depth-first file paths
-- relative to the project root, in insertion order.
mutual
def collectNodeFiles : FileNode → String → List String
  | .mk ty _ _ ch _ _ _ _ _, path =>
    match ty with
    | .file => [path]
    | .directory => collectListFiles ch path

def collectListFiles : FsList → String → List String
  | .nil, _ => []
  | .cons nm child rest, pre =>
    let path := if pre = "" then nm else pre ++ "/" ++ nm
    collectNodeFiles child path ++ collectListFiles rest pre
end

/-- The `filesInProject` computation of `renderGitStatus`: files under the
first top-level entry of the filesystem map. -/
def filesInProject (fs : Fs) : List String :=
  match fs with
  | .nil => []
  | .cons _ projectNode _ =>
    if projectNode.isDir then collectListFiles projectNode.children "" else []

/-- The branch / detached-HEAD header block at the top of `renderGitStatus`,
including the `origin` tracking lines. -/
def statusHeaderLines (state : GameState) : List TermLine :=
  let git := state.git
  if git.HEAD.type = .branch then
    let branchLine : TermLine := ⟨"On branch " ++ git.HEAD.ref, .header, some ttBranch⟩
    let trackingLines : List TermLine :=
      match alookup git.remotes "origin" with
      | some remote =>
        if otruthy (alookup remote.branches git.HEAD.ref) then
          let localCommitId := alookup git.branches git.HEAD.ref
          let remoteCommitId := alookup remote.branches git.HEAD.ref
          if localCommitId = remoteCommitId then
            [⟨"Your branch is up to date with \x27origin/" ++ git.HEAD.ref ++ "\x27.", .normal, some ttUpToDate⟩]
          else if otruthy localCommitId && otruthy remoteCommitId then
            [⟨"Your branch is ahead of \x27origin/" ++ git.HEAD.ref ++ "\x27 by 1 commit.", .normal, some ttAhead⟩]
          else []
        else []
      | none => []
    branchLine :: trackingLines
  else
    [⟨"HEAD detached at " ++ jsSubstring git.HEAD.ref 0 7, .header, none⟩]

/-- Mirror of `renderGitStatus(state)`: the ordered classified lines.  Every
`lines.push` in the source is paired with a `rawLines.push` of the same text,
so the raw text is recovered as `(renderGitStatus s).map (·.text)` joined with
newlines. -/
def renderGitStatus (state : GameState) : List TermLine :=
  let git := state.git
  let headerLines : List TermLine := statusHeaderLines state
  let stagedLines : List TermLine :=
    if git.staging ≠ [] then
      ⟨"Changes to be committed:", .header, some ttStagingArea⟩ ::
      ⟨"  (use \"git restore --staged <file>...\" to unstage)", .hint, none⟩ ::
      ⟨"", .normal, none⟩ ::
      (git.staging.map (fun file =>
        let isNewFile := !(git.trackedFiles.contains file)
        let pre := if isNewFile then "new file:" else "modified:"
        let tooltip := if isNewFile then ttNewFile else ttStaged
        (⟨"        " ++ padEnd pre 12 ' ' ++ " " ++ file, .staged, some tooltip⟩ : TermLine))) ++
      [⟨"", .normal, none⟩]
    else []
  let modifiedFiles := git.workingDirectory.modified
  let deletedFiles := git.workingDirectory.deleted
  let unstagedLines : List TermLine :=
    if modifiedFiles ≠ [] || deletedFiles ≠ [] then
      ⟨"Changes not staged for commit:", .header, some ttWorkingDirectory⟩ ::
      ⟨"  (use \"git add <file>...\" to update what will be committed)", .hint, none⟩ ::
      ⟨"  (use \"git restore <file>...\" to discard changes in working directory)", .hint, none⟩ ::
      ⟨"", .normal, none⟩ ::
      (modifiedFiles.map (fun file =>
        (⟨"        modified:   " ++ file, .modified, some ttModified⟩ : TermLine))) ++
      (deletedFiles.map (fun file =>
        (⟨"        deleted:    " ++ file, .deleted, some ttDeleted⟩ : TermLine))) ++
      [⟨"", .normal, none⟩]
    else []
  let untrackedFiles :=
    (filesInProject state.fileSystem).filter (fun file =>
      !(git.staging.contains file) && !(git.trackedFiles.contains file) &&
      !(git.workingDirectory.modified.contains file))
  let untrackedLines : List TermLine :=
    if untrackedFiles ≠ [] then
      ⟨"Untracked files:", .header, some ttUntracked⟩ ::
      ⟨"  (use \"git add <file>...\" to include in what will be committed)", .hint, none⟩ ::
      ⟨"", .normal, none⟩ ::
      (untrackedFiles.map (fun file => (⟨"        " ++ file, .untracked, some ttUntracked⟩ : TermLine))) ++
      [⟨"", .normal, none⟩]
    else []
  let hasStaged := git.staging ≠ []
  let hasUnstaged := modifiedFiles ≠ [] || deletedFiles ≠ []
  let hasUntracked := untrackedFiles ≠ []
  let closingLines : List TermLine :=
    if !hasStaged && !hasUnstaged && !hasUntracked then
      [⟨"nothing to commit, working tree clean", .normal, none⟩]
    else if !hasStaged && (hasUnstaged || hasUntracked) then
      [⟨"no changes added to commit (use \"git add\" and/or \"git commit -a\")", .hint, none⟩]
    else []
  headerLines ++ [⟨"", .normal, none⟩] ++ stagedLines ++ unstagedLines ++ untrackedLines ++ closingLines

/-- Raw text of a rendered output (`rawLines.join('\n')`). -/
def rawOf (lines : List TermLine) : String :=
  String.intercalate "\n" (lines.map (·.text))

/-! ## Ancestor walk (`getAncestors`, gitEngine.ts) -/

/-- Mirror of `allCommits.find(c => c.id === current)`. -/
def findCommit (cs : List Commit) (i : String) : Option Commit :=
  cs.find? (fun c => c.id = i)

/-- A truthiness-guarded `stack.push` of a possibly-absent id. -/
def condCons (o : Option String) (l : List String) : List String :=
  match o with
  | some p => if p = "" then l else p :: l
  | none => l

/-- Mirror of the two truthiness-guarded `stack.push` calls: `parentId` is
pushed first, then `mergeParentId`, so the merge parent ends on top (the head
of the list here). -/
def pushParents (c : Commit) (stack : List String) : List String :=
  condCons c.mergeParentId (condCons c.parentId stack)

/-- Every id the walk can ever push: all commit ids and all parent ids
occurring in the commit list.  Used only for the termination measure. -/
def candIds (cs : List Commit) : List String :=
  cs.flatMap (fun c => c.id :: (c.parentId.toList ++ c.mergeParentId.toList))

theorem condCons_mem {o : Option String} {l : List String} {x : String}
    (hx : x ∈ condCons o l) : o = some x ∨ x ∈ l := by
  unfold condCons at hx
  rcases o with _ | p
  · exact Or.inr hx
  · by_cases hp : p = ""
    · simp [hp] at hx
      exact Or.inr hx
    · simp [hp] at hx
      rcases hx with h | h
      · exact Or.inl (by rw [h])
      · exact Or.inr h

theorem condCons_length (o : Option String) (l : List String) :
    (condCons o l).length ≤ l.length + 1 := by
  unfold condCons
  rcases o with _ | p
  · simp
  · by_cases hp : p = "" <;> simp [hp]

theorem pushParents_mem {c : Commit} {stack : List String} {x : String}
    (hx : x ∈ pushParents c stack) :
    x ∈ stack ∨ c.parentId = some x ∨ c.mergeParentId = some x := by
  unfold pushParents at hx
  rcases condCons_mem hx with h | h
  · exact Or.inr (Or.inr h)
  · rcases condCons_mem h with h2 | h2
    · exact Or.inr (Or.inl h2)
    · exact Or.inl h2

theorem pushParents_length (c : Commit) (stack : List String) :
    (pushParents c stack).length ≤ stack.length + 2 := by
  unfold pushParents
  have h1 := condCons_length c.parentId stack
  have h2 := condCons_length c.mergeParentId (condCons c.parentId stack)
  omega

theorem mem_candIds_of_find {cs : List Commit} {cur : String} {c : Commit}
    (h : findCommit cs cur = some c) {x : String}
    (hx : c.parentId = some x ∨ c.mergeParentId = some x) : x ∈ candIds cs := by
  have hc : c ∈ cs := List.mem_of_find?_eq_some h
  unfold candIds
  rw [List.mem_flatMap]
  refine ⟨c, hc, ?_⟩
  rcases hx with hx | hx <;> simp [hx]

/-- The `while (stack.length > 0)` loop of `getAncestors`.  A popped id is
skipped when it is falsy or already visited — the source guard
`if (current && !ancestors.has(current))` — and otherwise recorded as
visited (appended to `anc`) before its parents are expanded, so the walk
terminates even on cyclic or dangling data: each step either shrinks the
stack or visits an id drawn from the finite pool of stack ids and commit
parent ids. -/
def getAncestorsAux (cs : List Commit) : List String → List String → List String
  | anc, [] => anc
  | anc, cur :: stk =>
    if hcur : cur = "" ∨ cur ∈ anc then getAncestorsAux cs anc stk
    else
      match hf : findCommit cs cur with
      | some c => getAncestorsAux cs (anc ++ [cur]) (pushParents c stk)
      | none => getAncestorsAux cs (anc ++ [cur]) stk
termination_by anc stk =>
  2 * (((candIds cs ++ stk).toFinset \ anc.toFinset).card) + stk.length
decreasing_by
  · have hsub : ((candIds cs ++ stk).toFinset \ anc.toFinset) ⊆
        ((candIds cs ++ cur :: stk).toFinset \ anc.toFinset) := by
      intro x hx
      rw [Finset.mem_sdiff] at hx ⊢
      refine ⟨?_, hx.2⟩
      simp only [List.toFinset_append, Finset.mem_union, List.mem_toFinset] at hx ⊢
      rcases hx.1 with h | h
      · exact Or.inl h
      · exact Or.inr (List.mem_cons_of_mem _ h)
    have hc := Finset.card_le_card hsub
    have hlen : (cur :: stk).length = stk.length + 1 := rfl
    omega
  · have hnin : cur ∉ anc := fun h => hcur (Or.inr h)
    have hA : ((candIds cs ++ pushParents c stk).toFinset \ (anc ++ [cur]).toFinset) ⊆
        (((candIds cs ++ cur :: stk).toFinset \ anc.toFinset).erase cur) := by
      intro x hx
      rw [Finset.mem_sdiff] at hx
      obtain ⟨hxbase, hxnot⟩ := hx
      simp only [List.mem_toFinset, List.mem_append, List.mem_singleton] at hxnot
      push_neg at hxnot
      simp only [List.toFinset_append, Finset.mem_union, List.mem_toFinset] at hxbase
      rw [Finset.mem_erase, Finset.mem_sdiff]
      refine ⟨hxnot.2, ?_, ?_⟩
      · simp only [List.toFinset_append, Finset.mem_union, List.mem_toFinset]
        rcases hxbase with h | h
        · exact Or.inl h
        · rcases pushParents_mem h with h2 | h2
          · exact Or.inr (List.mem_cons_of_mem _ h2)
          · exact Or.inl (mem_candIds_of_find hf h2)
      · rw [List.mem_toFinset]
        exact hxnot.1
    have hcurm : cur ∈ ((candIds cs ++ cur :: stk).toFinset \ anc.toFinset) := by
      rw [Finset.mem_sdiff]
      refine ⟨?_, ?_⟩
      · simp
      · rw [List.mem_toFinset]
        exact hnin
    have h1 := Finset.card_le_card hA
    have h2 := Finset.card_erase_of_mem hcurm
    have h3 := pushParents_length c stk
    have h4 : 1 ≤ ((candIds cs ++ cur :: stk).toFinset \ anc.toFinset).card :=
      Finset.card_pos.mpr ⟨cur, hcurm⟩
    have hlen : (cur :: stk).length = stk.length + 1 := rfl
    omega
  · have hnin : cur ∉ anc := fun h => hcur (Or.inr h)
    have hA : ((candIds cs ++ stk).toFinset \ (anc ++ [cur]).toFinset) ⊆
        (((candIds cs ++ cur :: stk).toFinset \ anc.toFinset).erase cur) := by
      intro x hx
      rw [Finset.mem_sdiff] at hx
      obtain ⟨hxbase, hxnot⟩ := hx
      simp only [List.mem_toFinset, List.mem_append, List.mem_singleton] at hxnot
      push_neg at hxnot
      simp only [List.toFinset_append, Finset.mem_union, List.mem_toFinset] at hxbase
      rw [Finset.mem_erase, Finset.mem_sdiff]
      refine ⟨hxnot.2, ?_, ?_⟩
      · simp only [List.toFinset_append, Finset.mem_union, List.mem_toFinset]
        rcases hxbase with h | h
        · exact Or.inl h
        · exact Or.inr (List.mem_cons_of_mem _ h)
      · rw [List.mem_toFinset]
        exact hxnot.1
    have hcurm : cur ∈ ((candIds cs ++ cur :: stk).toFinset \ anc.toFinset) := by
      rw [Finset.mem_sdiff]
      refine ⟨?_, ?_⟩
      · simp
      · rw [List.mem_toFinset]
        exact hnin
    have h1 := Finset.card_le_card hA
    have h2 := Finset.card_erase_of_mem hcurm
    have h4 : 1 ≤ ((candIds cs ++ cur :: stk).toFinset \ anc.toFinset).card :=
      Finset.card_pos.mpr ⟨cur, hcurm⟩
    have hlen : (cur :: stk).length = stk.length + 1 := rfl
    omega

/-- Mirror of `getAncestors(commitId, allCommits)`. -/
def getAncestors (commitId : String) (allCommits : List Commit) : List String :=
  getAncestorsAux allCommits [] [commitId]

/-- Mirror of `renderGitBranch(state)`. -/
def renderGitBranch (state : GameState) : List TermLine :=
  let git := state.git
  let currentBranch : Option String :=
    if git.HEAD.type = .branch then some git.HEAD.ref else none
  let branchNames := insSort (fun a b => a ≤ b) (git.branches.map (·.1))
  branchNames.map (fun b =>
    if currentBranch = some b then
      ⟨"* " ++ b, .branchCurrent, some "This is your currently active branch"⟩
    else
      ⟨"  " ++ b, .branch, some ttBranch⟩)

/-! ## The command interpreter (`runSingleCommand`, gitEngine.ts) -/

/-- Mirror of `x || d` on possibly-undefined numbers with `0` falsy. -/
def jsOrNat (o : Option Nat) (d : Nat) : Nat :=
  match o with
  | some n => if n = 0 then d else n
  | none => d

/-- A single-quote character as a string. -/
def sq : String := "\x27"

/-- Mirror of `newState.lastCommandOutput = finalOutput`. -/
def setLast (s : GameState) (out : String) : GameState :=
  { s with lastCommandOutput := some out }

/-- The grep-pipe transformation at the top of `formatOutput`: applied when the
command line had a `|` segment and the result is not an error. -/
def grepPipe (pipeParts : List String) (text : String) (ty : OutType) : String :=
  if pipeParts.length > 1 && ty ≠ .error then
    let secondaryParts := jsSplitWs (pipeParts.getD 1 "")
    if secondaryParts.headD "" = "grep" then
      match argGet secondaryParts 1 with
      | some raw =>
        let search := dropQuotes raw
        if search ≠ "" then
          String.intercalate "\n" ((splitChar '\n' text).filter (fun l => strHasSub l search))
        else text
      | none => text
    else text
  else text

/-- The `>` / `>>` redirect block of `formatOutput`: `some` is the filesystem
after a successful write (the source then returns `success` with empty
output; only the tree is mutated), and `none` means the block fell through
(no redirect token, missing or invalid target) to the plain return. -/
def redirectWrite (ctx : RunCtx) (args : List String) (s : GameState)
    (finalOutput : String) : Option Fs :=
  let redirectIndex := idxOf args ">"
  let appendIndex := idxOf args ">>"
  let isApp := appendIndex.isSome
  let fileIndex : Option Nat :=
    match redirectIndex with
    | some i => some (i + 1)
    | none => appendIndex.map (· + 1)
  match fileIndex with
  | none => none
  | some fi =>
    match argGet args fi with
    | none => none
    | some targetFile =>
      if targetFile = "" then none
      else
        let r := resolvePath s.fileSystem targetFile s.cwd
        match resNode s.fileSystem r with
        | some node =>
          if node.ty = .directory then none
          else
            let newContent := if isApp then node.content ++ "\n" ++ finalOutput else finalOutput
            some (fsUpdate s.fileSystem (r.node.getD [])
              (fun n => ((n.withContent newContent).withSize
                (some newContent.data.length)).withModified (some ctx.now)))
        | none =>
          match resParent s.fileSystem r with
          | some pn =>
            if pn.isDir then
              some (fsInsert s.fileSystem (r.parent.getD []) r.name
                (FileNode.mkFile r.name finalOutput (some "-rw-r--r--") (some "user")
                  (some "staff") (some finalOutput.data.length) (some ctx.now)))
            else none
          | none => none

/-- Mirror of the local `formatOutput(text, type)` helper of
`runSingleCommand`: applies the grep pipe, then either performs a redirect
write (returning `success` with empty output) or records `lastCommandOutput`
and returns the text with its classification. -/
def formatOutput (ctx : RunCtx) (args pipeParts : List String) (text : String)
    (ty : OutType) (s : GameState) : CommandResult :=
  let finalOutput := grepPipe pipeParts text ty
  match redirectWrite ctx args s finalOutput with
  | some fs2 => ⟨"", .success, { s with fileSystem := fs2 }, none⟩
  | none => ⟨finalOutput, ty, setLast s finalOutput, none⟩

/-- Mirror of `formatLongListing(node, name)` (locale/timezone renderings come
from the context). -/
def formatLongListing (ctx : RunCtx) (node : FileNode) (nm : String) : String :=
  let perms := jsOrStr node.permissions (if node.ty = .directory then "drwxr-xr-x" else "-rw-r--r--")
  let links : Nat := if node.ty = .directory then 2 else 1
  let owner := jsOrStr node.owner "user"
  let group := jsOrStr node.group "staff"
  let size : Nat :=
    match node.size with
    | some sz => sz
    | none => match node.ty with
      | .file => node.content.data.length
      | .directory => 4096
  let t := jsOrNat node.modified ctx.now
  let month := ctx.monthShort t
  let day := padStart (toString (ctx.dayOf t)) 2 ' '
  let time := padStart (toString (ctx.hourOf t)) 2 '0' ++ ":" ++ padStart (toString (ctx.minuteOf t)) 2 '0'
  let sizeStr := padStart (toString size) 5 ' '
  padEnd perms 10 ' ' ++ " " ++ toString links ++ " " ++ padEnd owner 8 ' ' ++ " " ++
    padEnd group 8 ' ' ++ " " ++ sizeStr ++ " " ++ month ++ " " ++ day ++ " " ++ time ++ " " ++ nm

/-- The `echo` handler (quote stripping, `>`/`>>` redirection of its own). -/
def cmdEcho (ctx : RunCtx) (args pipeParts : List String) (s : GameState) : CommandResult :=
  let hasRedirect := (idxOf args ">").isSome || (idxOf args ">>").isSome
  let parts := (args.drop 1).takeWhile (fun a => a ≠ ">" && a ≠ ">>")
  let rest := (args.drop 1).dropWhile (fun a => a ≠ ">" && a ≠ ">>")
  let redirectIndex : Option Nat := if rest.isEmpty then none else some (1 + parts.length)
  let message0 := String.intercalate " " parts
  let message :=
    if (strStarts message0 "\"" && strEnds message0 "\"") ||
       (strStarts message0 sq && strEnds message0 sq) then
      jsSliceStr message0 1 (-1)
    else message0
  match redirectIndex with
  | some ri =>
    if hasRedirect then
      let isApp := args.getD ri "" = ">>"
      match argGet args (ri + 1) with
      | fn0 =>
        if !otruthy fn0 then
          formatOutput ctx args pipeParts "bash: syntax error near unexpected token `newline\x27" .error s
        else
          let fileName := argStr fn0
          let r := resolvePath s.fileSystem fileName s.cwd
          match resParent s.fileSystem r with
          | some pn =>
            if pn.isDir then
              match resNode s.fileSystem r with
              | some node =>
                if node.ty = .file then
                  let newContent :=
                    if isApp then node.content ++ (if node.content ≠ "" then "\n" else "") ++ message
                    else message
                  let fs2 := fsUpdate s.fileSystem (r.node.getD [])
                    (fun n => ((n.withContent newContent).withSize
                      (some newContent.data.length)).withModified (some ctx.now))
                  ⟨"", .success, { s with fileSystem := fs2 }, none⟩
                else
                  formatOutput ctx args pipeParts ("bash: " ++ fileName ++ ": Is a directory") .error s
              | none =>
                let fs2 := fsInsert s.fileSystem (r.parent.getD []) r.name
                  (FileNode.mkFile r.name message (some "-rw-r--r--") (some "user") (some "staff")
                    (some message.data.length) (some ctx.now))
                ⟨"", .success, { s with fileSystem := fs2 }, none⟩
            else
              formatOutput ctx args pipeParts ("bash: " ++ fileName ++ ": No such file or directory") .error s
          | none =>
            formatOutput ctx args pipeParts ("bash: " ++ fileName ++ ": No such file or directory") .error s
    else formatOutput ctx args pipeParts message .success s
  | none => formatOutput ctx args pipeParts message .success s

/-- The `cat` handler. -/
def cmdCat (ctx : RunCtx) (args pipeParts : List String) (s : GameState) : CommandResult :=
  let target0 := argGet args 1
  if !otruthy target0 then formatOutput ctx args pipeParts "cat: missing operand" .error s
  else
    let target := argStr target0
    match resNode s.fileSystem (resolvePath s.fileSystem target s.cwd) with
    | none => formatOutput ctx args pipeParts ("cat: " ++ target ++ ": No such file or directory") .error s
    | some node =>
      if node.ty = .directory then
        formatOutput ctx args pipeParts ("cat: " ++ target ++ ": Is a directory") .error s
      else formatOutput ctx args pipeParts node.content .success s

/-- The `vim` handler: loads the target into `activeEditor`. -/
def cmdVim (ctx : RunCtx) (args pipeParts : List String) (s : GameState) : CommandResult :=
  let target0 := argGet args 1
  if !otruthy target0 then formatOutput ctx args pipeParts "vim: missing operand" .error s
  else
    let target := argStr target0
    match resNode s.fileSystem (resolvePath s.fileSystem target s.cwd) with
    | some node =>
      if node.ty = .directory then
        formatOutput ctx args pipeParts ("vim: " ++ target ++ ": Is a directory") .error s
      else ⟨"", .success, { s with activeEditor := some (target, node.content) }, none⟩
    | none => ⟨"", .success, { s with activeEditor := some (target, "") }, none⟩

/-- The `export` handler. -/
def cmdExport (ctx : RunCtx) (args pipeParts : List String) (s : GameState) : CommandResult :=
  let pair0 := argGet args 1
  if !(otruthy pair0 && strHasSub (argStr pair0) "=") then
    formatOutput ctx args pipeParts "export: invalid format. Use KEY=VALUE" .error s
  else
    let pair := argStr pair0
    let eqIdx := (idxOf pair.data '=').getD 0
    let key := String.mk (pair.data.take eqIdx)
    let val0 := String.mk (pair.data.drop (eqIdx + 1))
    let val :=
      if strStarts val0 "\"" && strEnds val0 "\"" then
        jsSubstring val0 1 ((val0.data.length : Int) - 1)
      else val0
    formatOutput ctx args pipeParts "" .success { s with envVariables := aset s.envVariables key val }

/-- The `ls` handler. -/
def cmdLs (ctx : RunCtx) (args pipeParts : List String) (s : GameState) : CommandResult :=
  let hasLongFlag := args.contains "-l"
  let target := jsOrStr (args.find? (fun a => !strStarts a "-" && a ≠ "ls")) "."
  match resNode s.fileSystem (resolvePath s.fileSystem target s.cwd) with
  | none =>
    formatOutput ctx args pipeParts ("ls: cannot access " ++ sq ++ target ++ sq ++ ": No such file or directory") .error s
  | some node =>
    if node.ty = .file then
      formatOutput ctx args pipeParts
        (if hasLongFlag then formatLongListing ctx node node.name else node.name) .info s
    else if node.isDir then
      if !hasLongFlag then
        formatOutput ctx args pipeParts
          (String.intercalate "  " (insSort (fun a b => a ≤ b) node.children.keys)) .success s
      else
        let entries := insSort (fun a b => ctx.localeLe a.1 b.1) node.children.entries
        formatOutput ctx args pipeParts
          ("total " ++ toString node.children.length ++ "\n" ++
            String.intercalate "\n" (entries.map (fun e => formatLongListing ctx e.2 e.1))) .success s
    else formatOutput ctx args pipeParts "" .success s

/-- The `cd` handler (its own `..`-aware textual path computation on `cwd`). -/
def cmdCd (ctx : RunCtx) (args pipeParts : List String) (s : GameState) : CommandResult :=
  let target0 := argGet args 1
  if !otruthy target0 then formatOutput ctx args pipeParts "" .success s
  else
    let target := argStr target0
    match resNode s.fileSystem (resolvePath s.fileSystem target s.cwd) with
    | some node =>
      if node.ty ≠ .directory then
        formatOutput ctx args pipeParts ("cd: " ++ target ++ ": No such file or directory") .error s
      else
        let newPath :=
          if strStarts target "/" then target
          else
            (splitChar '/' target).foldl (fun np p =>
              if p = ".." then
                let arr := (splitChar '/' np).filter (· ≠ "")
                "/" ++ String.intercalate "/" arr.dropLast
              else if p ≠ "." then
                (if np = "/" then "/" ++ p else np ++ "/" ++ p)
              else np) s.cwd
        formatOutput ctx args pipeParts "" .success
          { s with cwd := if newPath = "" then "/" else newPath }
    | none => formatOutput ctx args pipeParts ("cd: " ++ target ++ ": No such file or directory") .error s

/-- The `mkdir` handler. -/
def cmdMkdir (ctx : RunCtx) (args pipeParts : List String) (s : GameState) : CommandResult :=
  let target0 := argGet args 1
  if !otruthy target0 then formatOutput ctx args pipeParts "mkdir: missing operand" .error s
  else
    let target := argStr target0
    let r := resolvePath s.fileSystem target s.cwd
    if (resNode s.fileSystem r).isSome then
      formatOutput ctx args pipeParts
        ("mkdir: cannot create directory " ++ sq ++ target ++ sq ++ ": File exists") .error s
    else
      match resParent s.fileSystem r with
      | some pn =>
        if pn.isDir then
          let fs2 := fsInsert s.fileSystem (r.parent.getD []) r.name
            (FileNode.mkDir r.name .nil (some "drwxr-xr-x") (some "user") (some "staff")
              (some 4096) (some ctx.now))
          formatOutput ctx args pipeParts "" .success { s with fileSystem := fs2 }
        else
          formatOutput ctx args pipeParts
            ("mkdir: cannot create directory " ++ sq ++ target ++ sq ++ ": No such file or directory") .error s
      | none =>
        formatOutput ctx args pipeParts
          ("mkdir: cannot create directory " ++ sq ++ target ++ sq ++ ": No such file or directory") .error s

/-- The `touch` handler. -/
def cmdTouch (ctx : RunCtx) (args pipeParts : List String) (s : GameState) : CommandResult :=
  let target0 := argGet args 1
  if !otruthy target0 then formatOutput ctx args pipeParts "touch: missing operand" .error s
  else
    let target := argStr target0
    let r := resolvePath s.fileSystem target s.cwd
    match resNode s.fileSystem r with
    | some _ =>
      let fs2 := fsUpdate s.fileSystem (r.node.getD []) (fun n => n.withModified (some ctx.now))
      formatOutput ctx args pipeParts "" .success { s with fileSystem := fs2 }
    | none =>
      match resParent s.fileSystem r with
      | some pn =>
        if pn.isDir then
          let fs2 := fsInsert s.fileSystem (r.parent.getD []) r.name
            (FileNode.mkFile r.name "" (some "-rw-r--r--") (some "user") (some "staff")
              (some 0) (some ctx.now))
          formatOutput ctx args pipeParts "" .success { s with fileSystem := fs2 }
        else
          formatOutput ctx args pipeParts
            ("touch: cannot touch " ++ sq ++ target ++ sq ++ ": No such file or directory") .error s
      | none =>
        formatOutput ctx args pipeParts
          ("touch: cannot touch " ++ sq ++ target ++ sq ++ ": No such file or directory") .error s

/-- The `rm` handler.  Note the source scans all of `args` (including the
command word itself, which never starts with `-`) for its target. -/
def cmdRm (ctx : RunCtx) (args pipeParts : List String) (s : GameState) : CommandResult :=
  let target0 := args.find? (fun a => !strStarts a "-")
  if !otruthy target0 then formatOutput ctx args pipeParts "rm: missing operand" .error s
  else
    let target := argStr target0
    let r := resolvePath s.fileSystem target s.cwd
    match resNode s.fileSystem r with
    | none =>
      formatOutput ctx args pipeParts
        ("rm: cannot remove " ++ sq ++ target ++ sq ++ ": No such file or directory") .error s
    | some node =>
      if node.ty = .directory && !args.contains "-rf" && !args.contains "-r" then
        formatOutput ctx args pipeParts
          ("rm: cannot remove " ++ sq ++ target ++ sq ++ ": Is a directory") .error s
      else
        match resParent s.fileSystem r with
        | some pn =>
          if pn.isDir then
            formatOutput ctx args pipeParts "" .success
              { s with fileSystem := fsEraseChild s.fileSystem (r.parent.getD []) r.name }
          else formatOutput ctx args pipeParts "rm: unknown error" .error s
        | none => formatOutput ctx args pipeParts "rm: unknown error" .error s

/-- The standalone `grep` handler (file argument or `lastCommandOutput`). -/
def cmdGrep (ctx : RunCtx) (args pipeParts : List String) (s : GameState) : CommandResult :=
  let pattern0 := argGet args 1
  if !otruthy pattern0 then formatOutput ctx args pipeParts "grep: missing pattern" .error s
  else
    let pattern := argStr pattern0
    let target0 := argGet args 2
    if otruthy target0 then
      let target := argStr target0
      match resNode s.fileSystem (resolvePath s.fileSystem target s.cwd) with
      | none =>
        formatOutput ctx args pipeParts ("grep: " ++ target ++ ": No such file or directory") .error s
      | some node =>
        if node.ty = .directory then
          formatOutput ctx args pipeParts ("grep: " ++ target ++ ": Is a directory") .error s
        else
          let hits := (splitChar '\n' node.content).filter (fun l => strHasSub l pattern)
          if hits.isEmpty then formatOutput ctx args pipeParts "" .success s
          else formatOutput ctx args pipeParts (String.intercalate "\n" hits) .success s
    else if otruthy s.lastCommandOutput then
      let hits := (splitChar '\n' (argStr s.lastCommandOutput)).filter (fun l => strHasSub l pattern)
      formatOutput ctx args pipeParts (String.intercalate "\n" hits) .success s
    else formatOutput ctx args pipeParts "grep: no input file specified" .error s

/-- Wildcard matcher standing in for `new RegExp('^' + pattern.replace(/\*/g, '.*') + '$')`:
`*` matches any sequence and `.` (a regexp metacharacter the source leaves
unescaped) matches any single character; other characters are literals. -/
def globTest : List Char → List Char → Bool
  | [], n => n.isEmpty
  | '*' :: ps, [] => globTest ps []
  | '*' :: ps, c :: ns => globTest ps (c :: ns) || globTest ('*' :: ps) ns
  | '.' :: ps, _ :: ns => globTest ps ns
  | '.' :: _, [] => false
  | p :: ps, c :: ns => p = c && globTest ps ns
  | _ :: _, [] => false
termination_by pat n => (n.length, pat.length)

/-- The per-name match condition of `find`. -/
def findMatch (pat : Option String) (nm : String) : Bool :=
  match pat with
  | none => true
  | some p =>
    if p = "" then true
    else (nm = p) || (strHasSub p "*" && globTest p.data nm.data)

-- The `searchRecursive` helper of `find`: per entry, push the match, then
-- descend into directories.
mutual
def findRecurNode : Option String → FileNode → String → List String
  | pat, .mk ty _ _ ch _ _ _ _ _, path =>
    match ty with
    | .directory => findRecurList pat ch path
    | .file => []

def findRecurList : Option String → FsList → String → List String
  | _, .nil, _ => []
  | pat, .cons nm child rest, path =>
    let childPath := if path = "." then "./" ++ nm else path ++ "/" ++ nm
    (if findMatch pat nm then [childPath] else []) ++
      findRecurNode pat child childPath ++ findRecurList pat rest path
end

/-- The `find` handler. -/
def cmdFind (ctx : RunCtx) (args pipeParts : List String) (s : GameState) : CommandResult :=
  let searchPath := jsOrStr (argGet args 1) "."
  let nameFlag := idxOf args "-name"
  let pattern : Option String :=
    match nameFlag with
    | some i => (argGet args (i + 1)).map dropQuotes
    | none => none
  match resNode s.fileSystem (resolvePath s.fileSystem searchPath s.cwd) with
  | none =>
    formatOutput ctx args pipeParts
      ("find: " ++ sq ++ searchPath ++ sq ++ ": No such file or directory") .error s
  | some node =>
    let results := findRecurNode pattern node searchPath
    formatOutput ctx args pipeParts
      (jsOrStr (some (String.intercalate "\n" results)) searchPath) .success s

/-- The `chmod` handler. -/
def cmdChmod (ctx : RunCtx) (args pipeParts : List String) (s : GameState) : CommandResult :=
  let mode0 := argGet args 1
  let target0 := argGet args 2
  if !(otruthy mode0 && otruthy target0) then
    formatOutput ctx args pipeParts "chmod: missing operand" .error s
  else
    let mode := argStr mode0
    let target := argStr target0
    let r := resolvePath s.fileSystem target s.cwd
    match resNode s.fileSystem r with
    | none =>
      formatOutput ctx args pipeParts
        ("chmod: cannot access " ++ sq ++ target ++ sq ++ ": No such file or directory") .error s
    | some node =>
      let permsTable := ["---", "--x", "-w-", "-wx", "r--", "r-x", "rw-", "rwx"]
      let upd : FileNode → FileNode :=
        if mode.data.all Char.isDigit && (mode.data.length = 3 || mode.data.length = 4) then
          let modeNum := (jsSliceStr mode (-3) (mode.data.length : Int)).data
          let digit := fun (i : Nat) =>
            (permsTable.get? ((modeNum.getD i '0').toNat - '0'.toNat)).getD "undefined"
          let pre := if node.ty = .directory then "d" else "-"
          fun n => (n.withPermissions (some (pre ++ digit 0 ++ digit 1 ++ digit 2))).withModified (some ctx.now)
        else if mode = "+x" then
          fun n =>
            let current := jsOrStr n.permissions (if n.ty = .directory then "drwxr-xr-x" else "-rw-r--r--")
            (n.withPermissions (some (jsSliceStr current 0 3 ++ "x" ++
              jsSliceStr current 4 (current.data.length : Int)))).withModified (some ctx.now)
        else fun n => n.withModified (some ctx.now)
      formatOutput ctx args pipeParts "" .success
        { s with fileSystem := fsUpdate s.fileSystem (r.node.getD []) upd }

/-- The `head` handler. -/
def cmdHead (ctx : RunCtx) (args pipeParts : List String) (s : GameState) : CommandResult :=
  let nFlag := idxOf args "-n"
  let lines : Int :=
    match nFlag with
    | some i => jsOrInt (jsParseInt (argStr (argGet args (i + 1)))) 10
    | none => 10
  let target0 := args.find? (fun a =>
    !strStarts a "-" && a ≠ "head" && !(a ≠ "" && a.data.all Char.isDigit))
  if !otruthy target0 then formatOutput ctx args pipeParts "head: missing file operand" .error s
  else
    let target := argStr target0
    match resNode s.fileSystem (resolvePath s.fileSystem target s.cwd) with
    | none =>
      formatOutput ctx args pipeParts ("head: " ++ target ++ ": No such file or directory") .error s
    | some node =>
      if node.ty = .directory then
        formatOutput ctx args pipeParts ("head: " ++ target ++ ": Is a directory") .error s
      else
        formatOutput ctx args pipeParts
          (String.intercalate "\n" (jsSliceTo (splitChar '\n' node.content) lines)) .success s

/-- The `tail` handler. -/
def cmdTail (ctx : RunCtx) (args pipeParts : List String) (s : GameState) : CommandResult :=
  let nFlag := idxOf args "-n"
  let lines : Int :=
    match nFlag with
    | some i => jsOrInt (jsParseInt (argStr (argGet args (i + 1)))) 10
    | none => 10
  let target0 := args.find? (fun a =>
    !strStarts a "-" && a ≠ "tail" && !(a ≠ "" && a.data.all Char.isDigit))
  if !otruthy target0 then formatOutput ctx args pipeParts "tail: missing file operand" .error s
  else
    let target := argStr target0
    match resNode s.fileSystem (resolvePath s.fileSystem target s.cwd) with
    | none =>
      formatOutput ctx args pipeParts ("tail: " ++ target ++ ": No such file or directory") .error s
    | some node =>
      if node.ty = .directory then
        formatOutput ctx args pipeParts ("tail: " ++ target ++ ": Is a directory") .error s
      else
        formatOutput ctx args pipeParts
          (String.intercalate "\n" (jsSliceFrom (splitChar '\n' node.content) (-lines))) .success s

/-- The `wc` handler. -/
def cmdWc (ctx : RunCtx) (args pipeParts : List String) (s : GameState) : CommandResult :=
  let hasL := args.contains "-l"
  let hasW := args.contains "-w"
  let target0 := args.find? (fun a => !strStarts a "-" && a ≠ "wc")
  if !otruthy target0 then formatOutput ctx args pipeParts "wc: missing file operand" .error s
  else
    let target := argStr target0
    match resNode s.fileSystem (resolvePath s.fileSystem target s.cwd) with
    | none =>
      formatOutput ctx args pipeParts ("wc: " ++ target ++ ": No such file or directory") .error s
    | some node =>
      if node.ty = .directory then
        formatOutput ctx args pipeParts ("wc: " ++ target ++ ": Is a directory") .error s
      else
        let content := node.content
        let lineCount := (splitChar '\n' content).length
        let wordCount := ((splitPred isWs content).filter (· ≠ "")).length
        let charCount := content.data.length
        if hasL then formatOutput ctx args pipeParts (toString lineCount ++ " " ++ target) .success s
        else if hasW then formatOutput ctx args pipeParts (toString wordCount ++ " " ++ target) .success s
        else
          formatOutput ctx args pipeParts
            (toString lineCount ++ " " ++ toString wordCount ++ " " ++ toString charCount ++ " " ++ target)
            .success s

/-! ## git subcommand handlers -/

/-- `git status`: structured output via the renderer; never an error once the
repository is initialized.  (The source first default-initializes the optional
`workingDirectory` / `trackedFiles` fields, which is the identity here.) -/
def gitStatusH (s : GameState) : CommandResult :=
  let lines := renderGitStatus s
  ⟨rawOf lines, .gitStatus, s, some lines⟩

/-- `git add`: stage resolvable files (or all files in the current directory
for `.`), removing staged names from the modified tracker. -/
def gitAddH (ctx : RunCtx) (args pipeParts : List String) (s : GameState) : CommandResult :=
  let files := args.drop 2
  if files.contains "." then
    let r := resolvePath s.fileSystem "." s.cwd
    match resNode s.fileSystem r with
    | some node =>
      if node.isDir then
        let names := (node.children.entries.filter (fun e => e.2.ty = .file)).map (·.1)
        let git2 :=
          { s.git with
            staging := dedupFirst (s.git.staging ++ names)
            workingDirectory :=
              { s.git.workingDirectory with
                modified := s.git.workingDirectory.modified.filter (fun f => !names.contains f) } }
        formatOutput ctx args pipeParts "" .success { s with git := git2 }
      else formatOutput ctx args pipeParts "" .success s
    | none => formatOutput ctx args pipeParts "" .success s
  else
    let s2 := files.foldl (fun st f =>
      match resNode st.fileSystem (resolvePath st.fileSystem f st.cwd) with
      | some node =>
        if node.ty = .file then
          { st with git :=
            { st.git with
              staging := dedupFirst (st.git.staging ++ [f])
              workingDirectory :=
                { st.git.workingDirectory with
                  modified := st.git.workingDirectory.modified.filter (· ≠ f) } } }
        else st
      | none => st) s
    formatOutput ctx args pipeParts "" .success s2

/-- `git commit`: message check first, then the empty-staging check, then the
commit creation (parent from the acting branch or detached HEAD). -/
def gitCommitH (ctx : RunCtx) (args pipeParts : List String) (s : GameState) : CommandResult :=
  let mIndex := idxOf args "-m"
  let mValue : Option String := match mIndex with
    | some mi => argGet args (mi + 1)
    | none => none
  if mIndex = none || !otruthy mValue then
    formatOutput ctx args pipeParts "error: switch `m` requires a value" .error s
  else if s.git.staging = [] then
    formatOutput ctx args pipeParts "nothing to commit, working tree clean" .info s
  else
    let msg := argStr mValue
    let newId := ctx.freshId
    let parentId : Option String :=
      if s.git.HEAD.type = .branch then
        (match alookup s.git.branches s.git.HEAD.ref with
          | some v => if v = "" then none else some v
          | none => none)
      else some s.git.HEAD.ref
    let commit : Commit :=
      { id := newId, message := msg, parentId, mergeParentId := none,
        timestamp := ctx.now, author := "User", treeSnapshot := s.fileSystem }
    let git2 :=
      { s.git with
        commits := s.git.commits ++ [commit]
        staging := []
        trackedFiles := dedupFirst (s.git.trackedFiles ++ s.git.staging) }
    if s.git.HEAD.type = .branch then
      let git3 := { git2 with branches := aset git2.branches s.git.HEAD.ref newId }
      formatOutput ctx args pipeParts ("[" ++ s.git.HEAD.ref ++ " " ++ newId ++ "] " ++ msg)
        .success { s with git := git3 }
    else
      let git3 := { git2 with HEAD := ⟨.commit, newId⟩ }
      formatOutput ctx args pipeParts ("[" ++ newId ++ " " ++ newId ++ "] " ++ msg)
        .success { s with git := git3 }

/-- The `git branch <name>` / listing tail of the branch handler (reached when
neither `-M` nor `-d` applies). -/
def gitBranchRest (ctx : RunCtx) (args pipeParts : List String) (s : GameState) : CommandResult :=
  let name0 := argGet args 2
  if !otruthy name0 then
    let lines := renderGitBranch s
    ⟨rawOf lines, .gitBranch, s, some lines⟩
  else
    let name := argStr name0
    if otruthy (alookup s.git.branches name) then
      formatOutput ctx args pipeParts
        ("fatal: A branch named " ++ sq ++ name ++ sq ++ " already exists.") .error s
    else
      let headCommit : Option String :=
        if s.git.HEAD.type = .branch then alookup s.git.branches s.git.HEAD.ref
        else some s.git.HEAD.ref
      formatOutput ctx args pipeParts "" .success
        { s with git := { s.git with branches := aset s.git.branches name (jsOrStr headCommit "") } }

/-- `git branch` with `-M` (rename), `-d` (delete), a new name, or no name
(render the branch list). -/
def gitBranchH (ctx : RunCtx) (args pipeParts : List String) (s : GameState) : CommandResult :=
  if argGet args 2 = some "-M" && otruthy (argGet args 3) then
    if s.git.HEAD.type = .branch then
      let oldName := s.git.HEAD.ref
      let newName := argStr (argGet args 3)
      -- `branches[newName] = branches[oldName]` (defined on all engine-reachable
      -- states since HEAD names an existing branch), then `delete branches[oldName]`
      let v := (alookup s.git.branches oldName).getD ""
      let branches2 := aerase (aset s.git.branches newName v) oldName
      formatOutput ctx args pipeParts "" .success
        { s with git := { s.git with branches := branches2, HEAD := ⟨.branch, newName⟩ } }
    else gitBranchRest ctx args pipeParts s
  else if argGet args 2 = some "-d" && otruthy (argGet args 3) then
    let bd := argStr (argGet args 3)
    if !otruthy (alookup s.git.branches bd) then
      formatOutput ctx args pipeParts ("error: branch " ++ sq ++ bd ++ sq ++ " not found.") .error s
    else if s.git.HEAD.type = .branch && s.git.HEAD.ref = bd then
      formatOutput ctx args pipeParts
        ("error: Cannot delete branch " ++ sq ++ bd ++ sq ++ " checked out.") .error s
    else
      formatOutput ctx args pipeParts ("Deleted branch " ++ bd) .success
        { s with git := { s.git with branches := aerase s.git.branches bd } }
  else gitBranchRest ctx args pipeParts s

/-- `git checkout` / `git switch` (plain or with `-b` / `-c`). -/
def gitCheckoutH (ctx : RunCtx) (args pipeParts : List String) (s : GameState)
    (isSwitch : Bool) : CommandResult :=
  let t0 := argGet args 2
  let createBranch := t0 = some "-b" || (isSwitch && t0 = some "-c")
  let target := if createBranch then argGet args 3 else t0
  let key := argStr target
  if createBranch then
    if otruthy (alookup s.git.branches key) then
      formatOutput ctx args pipeParts
        ("fatal: A branch named " ++ sq ++ key ++ sq ++ " already exists.") .error s
    else
      let headCommit : Option String :=
        if s.git.HEAD.type = .branch then alookup s.git.branches s.git.HEAD.ref
        else some s.git.HEAD.ref
      -- `branches[target] = headCommit` (defined on all engine-reachable states)
      let branches2 := aset s.git.branches key (headCommit.getD "")
      formatOutput ctx args pipeParts ("Switched to a new branch " ++ sq ++ key ++ sq) .success
        { s with git := { s.git with branches := branches2, HEAD := ⟨.branch, key⟩ } }
  else
    match alookup s.git.branches key with
    | some cid =>
      let s2 := { s with git := { s.git with HEAD := ⟨.branch, key⟩ } }
      let s3 :=
        if cid ≠ "" then
          match findCommit s.git.commits cid with
          | some c => { s2 with fileSystem := c.treeSnapshot }
          | none => s2
        else s2
      formatOutput ctx args pipeParts ("Switched to branch " ++ sq ++ key ++ sq) .success s3
    | none =>
      formatOutput ctx args pipeParts
        ("error: pathspec " ++ sq ++ key ++ sq ++ " did not match any file(s) known to git") .error s

/-- `git merge <branch>`: creates a two-parent commit when both the current
and the target branch point at distinct commits. -/
def gitMergeH (ctx : RunCtx) (args pipeParts : List String) (s : GameState) : CommandResult :=
  let tb0 := argGet args 2
  if !otruthy tb0 then formatOutput ctx args pipeParts "merge: missing operand" .error s
  else
    let targetBranch := argStr tb0
    if !otruthy (alookup s.git.branches targetBranch) then
      formatOutput ctx args pipeParts
        ("merge: " ++ targetBranch ++ " - not something we can merge") .error s
    else
      let currentBranch := s.git.HEAD.ref
      let currentCommitId := alookup s.git.branches currentBranch
      let targetCommitId := alookup s.git.branches targetBranch
      if !otruthy currentCommitId || !otruthy targetCommitId then
        formatOutput ctx args pipeParts "Nothing to merge." .info s
      else if currentCommitId = targetCommitId then
        formatOutput ctx args pipeParts "Already up to date." .success s
      else
        let newId := ctx.freshId
        let msg := "Merge branch " ++ sq ++ targetBranch ++ sq ++ " into " ++ currentBranch
        let mergeCommit : Commit :=
          { id := newId, message := msg, parentId := currentCommitId,
            mergeParentId := targetCommitId, timestamp := ctx.now, author := "User",
            treeSnapshot := s.fileSystem }
        let git2 :=
          { s.git with
            commits := s.git.commits ++ [mergeCommit]
            branches := aset s.git.branches currentBranch newId }
        formatOutput ctx args pipeParts ("Merge made by the " ++ sq ++ "ort" ++ sq ++ " strategy.")
          .success { s with git := git2 }

/-- The `remote.commits` copy loop of `git push`: ancestors absent from the
remote are appended in ancestor-list order. -/
def copyAncestors (commits : List Commit) (ancestors : List String)
    (rc : List Commit) : List Commit :=
  ancestors.foldl (fun acc aid =>
    if (acc.find? (fun c => c.id = aid)).isSome then acc
    else match findCommit commits aid with
      | some c => acc ++ [c]
      | none => acc) rc

/-- The body of `git push` after the remote/branch-name munging. -/
def pushCore (ctx : RunCtx) (args pipeParts : List String)
    (remoteName : Option String) (branchName0 : Option String) (s : GameState) : CommandResult :=
  if !otruthy remoteName || (alookup s.git.remotes (argStr remoteName)).isNone then
    formatOutput ctx args pipeParts
      ("fatal: " ++ sq ++ argStr remoteName ++ sq ++ " does not appear to be a git repository") .error s
  else
    let rn := argStr remoteName
    match alookup s.git.remotes rn with
    | none =>
      formatOutput ctx args pipeParts
        ("fatal: " ++ sq ++ rn ++ sq ++ " does not appear to be a git repository") .error s
    | some remote =>
      let branchName := if !otruthy branchName0 then s.git.HEAD.ref else argStr branchName0
      let localCommitId := alookup s.git.branches branchName
      if !otruthy localCommitId then
        formatOutput ctx args pipeParts
          ("error: src refspec " ++ branchName ++ " does not match any.") .error s
      else
        let cid := (localCommitId).getD ""
        let ancestors := getAncestors cid s.git.commits
        let remote2 :=
          { remote with
            commits := copyAncestors s.git.commits ancestors remote.commits
            branches := aset remote.branches branchName cid }
        formatOutput ctx args pipeParts
          ("To " ++ remote.url ++ "\n * [new branch]      " ++ branchName ++ " -> " ++ branchName)
          .success { s with git := { s.git with remotes := aset s.git.remotes rn remote2 } }

/-- `git push`, including the `-u` / defaulted-remote argument munging. -/
def gitPushH (ctx : RunCtx) (args pipeParts : List String) (s : GameState) : CommandResult :=
  let r0 := argGet args 2
  let b0 := argGet args 3
  if r0 = some "-u" then pushCore ctx args pipeParts (argGet args 3) (argGet args 4) s
  else if !otruthy b0 then pushCore ctx args pipeParts (some "origin") r0 s
  else pushCore ctx args pipeParts r0 b0 s

/-- `git stash` (push / pop / apply / list / clear). -/
def gitStashH (ctx : RunCtx) (args pipeParts : List String) (s : GameState) : CommandResult :=
  let sub := argGet args 2
  if !otruthy sub || sub = some "push" then
    if s.git.staging = [] then
      formatOutput ctx args pipeParts "No local changes to save" .info s
    else
      let msg := jsOrStr (argGet args 3) ("WIP on " ++ s.git.HEAD.ref)
      let entry : StashEntry :=
        { id := ctx.freshId, staging := s.git.staging, fileSnapshot := s.fileSystem,
          message := msg, timestamp := ctx.now }
      formatOutput ctx args pipeParts
        ("Saved working directory and index state \"" ++ msg ++ "\"") .success
        { s with git := { s.git with stash := s.git.stash ++ [entry], staging := [] } }
  else if sub = some "pop" || sub = some "apply" then
    if s.git.stash.isEmpty then
      formatOutput ctx args pipeParts "No stash entries found." .error s
    else
      match s.git.stash.getLast? with
      | some entry =>
        let stash2 := if sub = some "pop" then s.git.stash.dropLast else s.git.stash
        let git2 := { s.git with staging := entry.staging, stash := stash2 }
        formatOutput ctx args pipeParts ("Applied stash: " ++ entry.message) .success
          { s with fileSystem := entry.fileSnapshot, git := git2 }
      | none =>
        formatOutput ctx args pipeParts "Usage: git stash [push|pop|apply|list|clear]" .info s
  else if sub = some "list" then
    if s.git.stash.isEmpty then formatOutput ctx args pipeParts "" .success s
    else
      let listing := String.intercalate "\n"
        (s.git.stash.enum.map (fun e => "stash@\x7b" ++ toString e.1 ++ "\x7d: " ++ e.2.message))
      formatOutput ctx args pipeParts listing .info s
  else if sub = some "clear" then
    formatOutput ctx args pipeParts "" .success { s with git := { s.git with stash := [] } }
  else formatOutput ctx args pipeParts "Usage: git stash [push|pop|apply|list|clear]" .info s

/-- The `HEAD~N` walk of `git reset`: up to `n` steps to the (truthy) parent,
leaving the id unchanged on missing commits or absent parents. -/
def walkBack (cs : List Commit) : Nat → String → String
  | 0, tid => tid
  | n + 1, tid =>
    if tid = "" then tid
    else match findCommit cs tid with
      | some c => if otruthy c.parentId then walkBack cs n (c.parentId.getD "") else walkBack cs n tid
      | none => walkBack cs n tid

/-- The target-resolution of `git reset` with a mode flag: parse
`ref~N`, read `HEAD` / a branch / the raw ref string, then walk back. -/
def resetResolve (s : GameState) (targetRefRaw : String) : String :=
  let stepsBack : Int :=
    if strHasSub targetRefRaw "~" then
      jsOrInt (jsParseInt (argStr (argGet (splitChar '~' targetRefRaw) 1))) 1
    else 0
  let targetRef :=
    if strHasSub targetRefRaw "~" then (splitChar '~' targetRefRaw).headD "" else targetRefRaw
  let start : String :=
    if targetRef = "HEAD" then
      (if s.git.HEAD.type = .branch then (alookup s.git.branches s.git.HEAD.ref).getD ""
       else s.git.HEAD.ref)
    else jsOrStr (alookup s.git.branches targetRef) targetRef
  walkBack s.git.commits stepsBack.toNat start

/-- `git reset` (`--hard` / `--soft` / `--mixed`, unstage one file, unstage all). -/
def gitResetH (ctx : RunCtx) (args pipeParts : List String) (s : GameState) : CommandResult :=
  let mode := argGet args 2
  if mode = some "--hard" || mode = some "--soft" || mode = some "--mixed" then
    let targetRefRaw := jsOrStr (argGet args 3) "HEAD"
    let walked := resetResolve s targetRefRaw
    if walked = "" then
      formatOutput ctx args pipeParts
        ("fatal: Failed to resolve " ++ sq ++ jsOrStr (argGet args 3) "HEAD" ++ sq ++ " as a valid ref.")
        .error s
    else
      let git2 :=
        if s.git.HEAD.type = .branch then
          { s.git with branches := aset s.git.branches s.git.HEAD.ref walked }
        else { s.git with HEAD := ⟨.commit, walked⟩ }
      if mode = some "--hard" then
        let fs2 := match findCommit s.git.commits walked with
          | some c => c.treeSnapshot
          | none => s.fileSystem
        formatOutput ctx args pipeParts ("HEAD is now at " ++ walked) .success
          { s with fileSystem := fs2, git := { git2 with staging := [] } }
      else if mode = some "--soft" then
        formatOutput ctx args pipeParts ("HEAD is now at " ++ walked) .success { s with git := git2 }
      else
        formatOutput ctx args pipeParts "Unstaged changes after reset:\nM\tfiles..." .success
          { s with git := { git2 with staging := [] } }
  else if otruthy mode && !strStarts (argStr mode) "-" then
    formatOutput ctx args pipeParts "" .success
      { s with git := { s.git with staging := s.git.staging.filter (· ≠ argStr mode) } }
  else
    formatOutput ctx args pipeParts "" .success { s with git := { s.git with staging := [] } }

/-- `git revert <ref>`: a new commit carrying the reverted commit's parent
tree (when that parent exists), advancing the acting branch. -/
def gitRevertH (ctx : RunCtx) (args pipeParts : List String) (s : GameState) : CommandResult :=
  let tr0 := argGet args 2
  if !otruthy tr0 then formatOutput ctx args pipeParts "error: missing commit to revert" .error s
  else
    let targetRef := argStr tr0
    match s.git.commits.find? (fun c => c.id = targetRef || strStarts c.id targetRef) with
    | none => formatOutput ctx args pipeParts ("fatal: bad revision " ++ sq ++ targetRef ++ sq) .error s
    | some cr =>
      let newId := ctx.freshId
      let msg := "Revert \"" ++ cr.message ++ "\""
      let parentId : Option String :=
        if s.git.HEAD.type = .branch then alookup s.git.branches s.git.HEAD.ref
        else some s.git.HEAD.ref
      let restored : Option Fs :=
        if otruthy cr.parentId then
          match findCommit s.git.commits (cr.parentId.getD "") with
          | some pc => some pc.treeSnapshot
          | none => none
        else none
      let snapshot := match restored with
        | some t => t
        | none => s.fileSystem
      let fs2 := match restored with
        | some t => t
        | none => s.fileSystem
      let revertCommit : Commit :=
        { id := newId, message := msg, parentId, mergeParentId := none,
          timestamp := ctx.now, author := "User", treeSnapshot := snapshot }
      let git2 := { s.git with commits := s.git.commits ++ [revertCommit] }
      let git3 :=
        if s.git.HEAD.type = .branch then
          { git2 with branches := aset git2.branches s.git.HEAD.ref newId }
        else git2
      formatOutput ctx args pipeParts ("[" ++ s.git.HEAD.ref ++ " " ++ newId ++ "] " ++ msg)
        .success { s with fileSystem := fs2, git := git3 }

/-- `git fetch`: copy absent remote commits into the local list. -/
def gitFetchH (ctx : RunCtx) (args pipeParts : List String) (s : GameState) : CommandResult :=
  let remoteName := jsOrStr (argGet args 2) "origin"
  match alookup s.git.remotes remoteName with
  | none =>
    formatOutput ctx args pipeParts
      ("fatal: " ++ sq ++ remoteName ++ sq ++ " does not appear to be a git repository") .error s
  | some remote =>
    let step := remote.commits.foldl (fun (acc : List Commit × Nat) rc =>
      if (acc.1.find? (fun c => c.id = rc.id)).isSome then acc
      else (acc.1 ++ [rc], acc.2 + 1)) (s.git.commits, 0)
    let s2 := { s with git := { s.git with commits := step.1 } }
    if step.2 = 0 then
      formatOutput ctx args pipeParts ("From " ++ remote.url ++ "\n * [up to date]") .success s2
    else
      formatOutput ctx args pipeParts
        ("From " ++ remote.url ++ "\n * [new commits]    " ++ toString step.2 ++ " objects") .success s2

/-- `git pull`: fetch, then fast-forward the local branch pointer to the
remote branch and refresh the working tree. -/
def gitPullH (ctx : RunCtx) (args pipeParts : List String) (s : GameState) : CommandResult :=
  let remoteName := jsOrStr (argGet args 2) "origin"
  match alookup s.git.remotes remoteName with
  | none =>
    formatOutput ctx args pipeParts
      ("fatal: " ++ sq ++ remoteName ++ sq ++ " does not appear to be a git repository") .error s
  | some remote =>
    let branchName := if !otruthy (argGet args 3) then s.git.HEAD.ref else argStr (argGet args 3)
    let commits2 := remote.commits.foldl (fun acc rc =>
      if (acc.find? (fun c => c.id = rc.id)).isSome then acc else acc ++ [rc]) s.git.commits
    let s2 := { s with git := { s.git with commits := commits2 } }
    let remoteCommitId := alookup remote.branches branchName
    if !otruthy remoteCommitId then
      formatOutput ctx args pipeParts "Already up to date." .success s2
    else
      let rcid := remoteCommitId.getD ""
      let localCommitId := alookup s2.git.branches branchName
      if localCommitId = some rcid then
        formatOutput ctx args pipeParts "Already up to date." .success s2
      else
        let git3 := { s2.git with branches := aset s2.git.branches branchName rcid }
        let fs3 := match findCommit commits2 rcid with
          | some c => c.treeSnapshot
          | none => s2.fileSystem
        let localShort := match localCommitId with
          | some l => jsOrStr (some (jsSubstring l 0 7)) "000000"
          | none => "000000"
        formatOutput ctx args pipeParts
          ("From " ++ remote.url ++ "\nUpdating " ++ localShort ++ ".." ++ jsSubstring rcid 0 7 ++ "\nFast-forward")
          .success { s2 with fileSystem := fs3, git := git3 }

/-- `git log` (`-n` limit, `--oneline`). -/
def gitLogH (ctx : RunCtx) (args pipeParts : List String) (s : GameState) : CommandResult :=
  let limit : Int :=
    match idxOf args "-n" with
    | some i => jsOrInt (jsParseInt (argStr (argGet args (i + 1)))) 5
    | none => 5
  let oneline := args.contains "--oneline"
  if s.git.commits.isEmpty then
    formatOutput ctx args pipeParts "fatal: your current branch does not have any commits yet" .error s
  else
    let commits := (jsSliceFrom s.git.commits (-limit)).reverse
    if oneline then
      formatOutput ctx args pipeParts
        (String.intercalate "\n" (commits.map (fun c => c.id ++ " " ++ c.message))) .info s
    else
      formatOutput ctx args pipeParts
        (String.intercalate "\n" (commits.map (fun c =>
          "commit " ++ c.id ++ "\nAuthor: " ++ c.author ++ "\nDate:   " ++
            ctx.dateToLocale c.timestamp ++ "\n\n    " ++ c.message ++ "\n"))) .info s

/-- The `git` dispatcher: `init` first, then the not-a-repository guard, then
one handler per subcommand; an unmatched subcommand (including a bare
`git remote` without `add`/`-v`) falls through to the final
command-not-found error of `runSingleCommand`. -/
def gitCmd (ctx : RunCtx) (args pipeParts : List String) (s : GameState) : CommandResult :=
  if !otruthy (argGet args 1) then formatOutput ctx args pipeParts "usage: git <command>" .info s
  else
    let subCmd := argStr (argGet args 1)
    if subCmd = "init" then
      formatOutput ctx args pipeParts "Initialized empty Git repository" .success
        { s with git := { s.git with repoInitialized := true } }
    else if !s.git.repoInitialized then
      formatOutput ctx args pipeParts "fatal: not a git repository" .error s
    else if subCmd = "remote" && argGet args 2 = some "add" && otruthy (argGet args 3) then
      let remoteName := argStr (argGet args 3)
      let url := jsOrStr (argGet args 4) "https://github.com/user/repo.git"
      formatOutput ctx args pipeParts "" .success
        { s with git := { s.git with remotes := aset s.git.remotes remoteName ⟨url, [], []⟩ } }
    else if subCmd = "remote" && argGet args 2 = some "-v" then
      let listing := String.intercalate "\n" (s.git.remotes.map (fun e =>
        e.1 ++ "\t" ++ e.2.url ++ " (fetch)\n" ++ e.1 ++ "\t" ++ e.2.url ++ " (push)"))
      formatOutput ctx args pipeParts listing .success s
    else if subCmd = "status" then gitStatusH s
    else if subCmd = "add" then gitAddH ctx args pipeParts s
    else if subCmd = "commit" then gitCommitH ctx args pipeParts s
    else if subCmd = "branch" then gitBranchH ctx args pipeParts s
    else if subCmd = "checkout" || subCmd = "switch" then
      gitCheckoutH ctx args pipeParts s (subCmd = "switch")
    else if subCmd = "merge" then gitMergeH ctx args pipeParts s
    else if subCmd = "push" then gitPushH ctx args pipeParts s
    else if subCmd = "stash" then gitStashH ctx args pipeParts s
    else if subCmd = "reset" then gitResetH ctx args pipeParts s
    else if subCmd = "revert" then gitRevertH ctx args pipeParts s
    else if subCmd = "fetch" then gitFetchH ctx args pipeParts s
    else if subCmd = "pull" then gitPullH ctx args pipeParts s
    else if subCmd = "log" then gitLogH ctx args pipeParts s
    else formatOutput ctx args pipeParts "Command not found: git" .error s

/-- The dispatch over the parsed argument list (the body of
`runSingleCommand` after tokenization). -/
def runParsed (ctx : RunCtx) (args pipeParts : List String) (s : GameState) : CommandResult :=
  match args with
  | [] => ⟨"", .success, s, none⟩
  | command :: _ =>
    if command = "echo" then cmdEcho ctx args pipeParts s
    else if command = "cat" then cmdCat ctx args pipeParts s
    else if command = "vim" then cmdVim ctx args pipeParts s
    else if command = "export" then cmdExport ctx args pipeParts s
    else if command = "pwd" then formatOutput ctx args pipeParts s.cwd .success s
    else if command = "ls" then cmdLs ctx args pipeParts s
    else if command = "cd" then cmdCd ctx args pipeParts s
    else if command = "mkdir" then cmdMkdir ctx args pipeParts s
    else if command = "touch" then cmdTouch ctx args pipeParts s
    else if command = "rm" then cmdRm ctx args pipeParts s
    else if command = "grep" then cmdGrep ctx args pipeParts s
    else if command = "find" then cmdFind ctx args pipeParts s
    else if command = "chmod" then cmdChmod ctx args pipeParts s
    else if command = "head" then cmdHead ctx args pipeParts s
    else if command = "tail" then cmdTail ctx args pipeParts s
    else if command = "wc" then cmdWc ctx args pipeParts s
    else if command = "clear" then formatOutput ctx args pipeParts "\x1Bc" .success s
    else if command = "whoami" then formatOutput ctx args pipeParts "user" .success s
    else if command = "hostname" then formatOutput ctx args pipeParts "devquest-vm" .success s
    else if command = "date" then formatOutput ctx args pipeParts (ctx.dateToString ctx.now) .success s
    else if command = "git" then gitCmd ctx args pipeParts s
    else formatOutput ctx args pipeParts ("Command not found: " ++ command) .error s

/-- Mirror of `runSingleCommand(cmd, state)`: reject `->` chains, split pipe
segments, tokenize the primary command, and dispatch. -/
def runSingleCommand (ctx : RunCtx) (cmd : String) (s : GameState) : CommandResult :=
  if strHasSub cmd "->" then
    ⟨"Invalid command format. Execute commands step-by-step.", .error, s, none⟩
  else
    let pipeParts := splitChar '|' cmd
    let primaryCmd := jsTrim (pipeParts.headD "")
    let args := tokenize primaryCmd
    runParsed ctx args pipeParts s

/-- Mirror of the exported `executeCommand`. -/
def executeCommand (ctx : RunCtx) (cmd : String) (s : GameState) : CommandResult :=
  runSingleCommand ctx cmd s

/-- One step of the `ancestors.forEach` copy loop of `git push`. -/
def copyStep (commits : List Commit) (acc : List Commit) (aid : String) : List Commit :=
  if (acc.find? (fun c => c.id = aid)).isSome then acc
  else match findCommit commits aid with
    | some c => acc ++ [c]
    | none => acc

/-- State equality on every field except the `lastCommandOutput` scratch
field: the sense in which failing commands leave the session untouched. -/
def frameExceptLast (a b : GameState) : Prop :=
  b.cwd = a.cwd ∧ b.fileSystem = a.fileSystem ∧ b.git = a.git ∧
  b.commandHistory = a.commandHistory ∧ b.envVariables = a.envVariables ∧
  b.activeEditor = a.activeEditor

/-- Abbreviation: an error result from `r` implies the state framing. -/
def ErrFrame (s : GameState) (r : CommandResult) : Prop :=
  r.type = .error → frameExceptLast s r.newState

/-! ## Concrete states and trees used to instantiate the theorems -/

/-- The initial state with the repository initialized (as after `git init`). -/
def initializedState : GameState :=
  { INITIAL_STATE with git := { INITIAL_STATE.git with repoInitialized := true } }

/-- A root commit over the initial tree. -/
def commitA : Commit :=
  { id := "c1", message := "first", parentId := none, mergeParentId := none,
    timestamp := 0, author := "User", treeSnapshot := INITIAL_STATE.fileSystem }

/-- A child of `commitA`. -/
def commitB : Commit :=
  { id := "c2", message := "second", parentId := some "c1", mergeParentId := none,
    timestamp := 1, author := "User", treeSnapshot := INITIAL_STATE.fileSystem }

/-- Two branches at distinct commits, ready to merge `feature` into `main`. -/
def mergeWitState : GameState :=
  { INITIAL_STATE with git :=
    { INITIAL_STATE.git with
      repoInitialized := true
      commits := [commitA, commitB]
      branches := [("main", "c1"), ("feature", "c2")] } }

/-- An initialized repository with one staged file. -/
def stashWitState : GameState :=
  { INITIAL_STATE with git :=
    { INITIAL_STATE.git with repoInitialized := true, staging := ["readme.md"] } }

/-- An empty registered remote. -/
def originWit : RemoteRepo := ⟨"https://example.com/repo.git", [], []⟩

/-- One commit on `main` and the remote `origin`, ready to push. -/
def pushWitState : GameState :=
  { INITIAL_STATE with git :=
    { INITIAL_STATE.git with
      repoInitialized := true
      commits := [commitA]
      branches := [("main", "c1")]
      remotes := [("origin", originWit)] } }

/-- The state after `git init; git add readme.md; git commit -m msg;
git reset --hard zzz` (the commit gets id `c1`). -/
def c2State : GameState :=
  (runSingleCommand ctx0 "git reset --hard zzz"
    (runSingleCommand (ctxId "c1") "git commit -m msg"
      (runSingleCommand ctx0 "git add readme.md"
        (runSingleCommand ctx0 "git init" INITIAL_STATE).newState).newState).newState).newState

/-- A tree with an empty directory `a` and a file `b` at the root. -/
def fs8 : Fs :=
  .cons "a" (.mk .directory "a" "" .nil none none none none none)
    (.cons "b" (.mk .file "b" "hi" .nil none none none none none) .nil)

/-- The state after `git init; git add readme.md; git commit -m msg`:
every file of the tree is tracked and the working-directory trackers are
empty. -/
def c5WitPre : GameState :=
  (runSingleCommand (ctxId "c1") "git commit -m msg"
    (runSingleCommand ctx0 "git add readme.md"
      (runSingleCommand ctx0 "git init" INITIAL_STATE).newState).newState).newState

/-- The commit `c1` as created in `c5WitPre`. -/
def c5CommitWit : Commit :=
  { id := "c1", message := "msg", parentId := none, mergeParentId := none,
    timestamp := 1700000000000, author := "User", treeSnapshot := INITIAL_STATE.fileSystem }

/-- Like `c5WitPre` but with an extra untracked file `note.txt` created
before the commit, so it is inside the commit snapshot yet never staged. -/
def c5CtrPre : GameState :=
  (runSingleCommand (ctxId "c1") "git commit -m msg"
    (runSingleCommand ctx0 "git add readme.md"
      (runSingleCommand ctx0 "touch note.txt"
        (runSingleCommand ctx0 "git init" INITIAL_STATE).newState).newState).newState).newState

/-- `c5CtrPre` after `git reset --hard HEAD`. -/
def c5CtrPost : GameState :=
  (runSingleCommand ctx0 "git reset --hard HEAD" c5CtrPre).newState

/-! ## Properties of the ancestor walk -/

/-- Equation lemmas. -/
theorem getAncestorsAux_nil (cs : List Commit) (anc : List String) :
    getAncestorsAux cs anc [] = anc := by
  rw [getAncestorsAux]

theorem getAncestorsAux_visited (cs : List Commit) {anc : List String} {cur : String}
    (stk : List String) (hcur : cur = "" ∨ cur ∈ anc) :
    getAncestorsAux cs anc (cur :: stk) = getAncestorsAux cs anc stk := by
  rw [getAncestorsAux]
  simp only [dif_pos hcur]

theorem getAncestorsAux_found (cs : List Commit) {anc : List String} {cur : String}
    (stk : List String) (hcur : ¬(cur = "" ∨ cur ∈ anc)) {c : Commit}
    (hf : findCommit cs cur = some c) :
    getAncestorsAux cs anc (cur :: stk) = getAncestorsAux cs (anc ++ [cur]) (pushParents c stk) := by
  rw [getAncestorsAux]
  simp only [dif_neg hcur]
  split
  · rename_i c2 hf2
    rw [hf] at hf2
    cases hf2
    rfl
  · rename_i hf2
    rw [hf] at hf2
    cases hf2

theorem getAncestorsAux_missing (cs : List Commit) {anc : List String} {cur : String}
    (stk : List String) (hcur : ¬(cur = "" ∨ cur ∈ anc)) (hf : findCommit cs cur = none) :
    getAncestorsAux cs anc (cur :: stk) = getAncestorsAux cs (anc ++ [cur]) stk := by
  rw [getAncestorsAux]
  simp only [dif_neg hcur]
  split
  · rename_i c2 hf2
    rw [hf] at hf2
    cases hf2
  · rfl

theorem condCons_mem_iff {o : Option String} {l : List String} {x : String} :
    x ∈ condCons o l ↔ (o = some x ∧ x ≠ "") ∨ x ∈ l := by
  rcases o with _ | p
  · simp [condCons]
  · by_cases hp : p = ""
    · subst hp
      have hred : condCons (some "") l = l := by simp [condCons]
      rw [hred]
      constructor
      · exact Or.inr
      · rintro (⟨heq, hne⟩ | h)
        · exact absurd (Option.some.inj heq).symm hne
        · exact h
    · have hred : condCons (some p) l = p :: l := by simp [condCons, hp]
      rw [hred]
      constructor
      · intro h
        rcases List.mem_cons.mp h with rfl | h2
        · exact Or.inl ⟨rfl, hp⟩
        · exact Or.inr h2
      · rintro (⟨heq, _⟩ | h)
        · rw [Option.some.inj heq]
          exact List.mem_cons_self _ _
        · exact List.mem_cons_of_mem _ h

theorem pushParents_mem_iff {c : Commit} {l : List String} {x : String} :
    x ∈ pushParents c l ↔
      (c.parentId = some x ∧ x ≠ "") ∨ (c.mergeParentId = some x ∧ x ≠ "") ∨ x ∈ l := by
  unfold pushParents
  rw [condCons_mem_iff, condCons_mem_iff]
  tauto

/-- The truthy parent ids of the commit an id resolves to. -/
def parentIds (cs : List Commit) (b : String) : List String :=
  match findCommit cs b with
  | some c => pushParents c []
  | none => []

/-- Spec-level reachability along `parentId` / `mergeParentId` edges. -/
inductive ReachesId (cs : List Commit) (start : String) : String → Prop where
  | refl : ReachesId cs start start
  | parentStep {b : String} {c : Commit} {p : String} :
      ReachesId cs start b → findCommit cs b = some c →
      c.parentId = some p → p ≠ "" → ReachesId cs start p
  | mergeStep {b : String} {c : Commit} {p : String} :
      ReachesId cs start b → findCommit cs b = some c →
      c.mergeParentId = some p → p ≠ "" → ReachesId cs start p

theorem mem_parentIds_iff {cs : List Commit} {b p : String} :
    p ∈ parentIds cs b ↔ ∃ c, findCommit cs b = some c ∧
      ((c.parentId = some p ∧ p ≠ "") ∨ (c.mergeParentId = some p ∧ p ≠ "")) := by
  unfold parentIds
  rcases hf : findCommit cs b with _ | c
  · simp
  · rw [pushParents_mem_iff]
    simp

/-- Soundness invariant: every id the walk returns satisfies any
parent-closed property holding on the inputs. -/
theorem getAncestorsAux_sound (cs : List Commit) (P : String → Prop)
    (hP : ∀ b, P b → ∀ p ∈ parentIds cs b, P p) :
    ∀ anc stk, (∀ a ∈ anc, P a) → (∀ x ∈ stk, P x) →
      ∀ y ∈ getAncestorsAux cs anc stk, P y := by
  intro anc stk
  induction anc, stk using getAncestorsAux.induct cs with
  | case1 anc =>
    intro hanc _ y hy
    rw [getAncestorsAux_nil] at hy
    exact hanc y hy
  | case2 anc cur stk hcur ih =>
    intro hanc hstk y hy
    rw [getAncestorsAux_visited cs stk hcur] at hy
    exact ih hanc (fun x hx => hstk x (List.mem_cons_of_mem _ hx)) y hy
  | case3 anc cur stk hcur c hf ih =>
    intro hanc hstk y hy
    rw [getAncestorsAux_found cs stk hcur hf] at hy
    have hPcur : P cur := hstk cur (List.mem_cons_self _ _)
    refine ih ?_ ?_ y hy
    · intro a ha
      rcases List.mem_append.mp ha with h | h
      · exact hanc a h
      · rw [List.mem_singleton] at h
        exact h ▸ hPcur
    · intro x hx
      rcases pushParents_mem_iff.mp hx with h | h | h
      · exact hP cur hPcur x (mem_parentIds_iff.mpr ⟨c, hf, Or.inl h⟩)
      · exact hP cur hPcur x (mem_parentIds_iff.mpr ⟨c, hf, Or.inr h⟩)
      · exact hstk x (List.mem_cons_of_mem _ h)
  | case4 anc cur stk hcur hf ih =>
    intro hanc hstk y hy
    rw [getAncestorsAux_missing cs stk hcur hf] at hy
    have hPcur : P cur := hstk cur (List.mem_cons_self _ _)
    refine ih ?_ (fun x hx => hstk x (List.mem_cons_of_mem _ hx)) y hy
    intro a ha
    rcases List.mem_append.mp ha with h | h
    · exact hanc a h
    · rw [List.mem_singleton] at h
      exact h ▸ hPcur

theorem getAncestorsAux_anc_subset (cs : List Commit) (anc stk : List String) :
    ∀ a ∈ anc, a ∈ getAncestorsAux cs anc stk := by
  induction anc, stk using getAncestorsAux.induct cs with
  | case1 anc => intro a ha; simpa [getAncestorsAux_nil] using ha
  | case2 anc cur stk hcur ih =>
    intro a ha
    rw [getAncestorsAux_visited cs stk hcur]
    exact ih a ha
  | case3 anc cur stk hcur c hf ih =>
    intro a ha
    rw [getAncestorsAux_found cs stk hcur hf]
    exact ih a (by simp [ha])
  | case4 anc cur stk hcur hf ih =>
    intro a ha
    rw [getAncestorsAux_missing cs stk hcur hf]
    exact ih a (by simp [ha])

theorem getAncestorsAux_stk_subset (cs : List Commit) (anc stk : List String) :
    ∀ x ∈ stk, x ≠ "" → x ∈ getAncestorsAux cs anc stk := by
  induction anc, stk using getAncestorsAux.induct cs with
  | case1 anc => intro x hx; cases hx
  | case2 anc cur stk hcur ih =>
    intro x hx hxne
    rw [getAncestorsAux_visited cs stk hcur]
    rcases List.mem_cons.mp hx with rfl | h
    · rcases hcur with hemp | hmem
      · exact absurd hemp hxne
      · exact getAncestorsAux_anc_subset cs anc stk x hmem
    · exact ih x h hxne
  | case3 anc cur stk hcur c hf ih =>
    intro x hx hxne
    rw [getAncestorsAux_found cs stk hcur hf]
    rcases List.mem_cons.mp hx with rfl | h
    · exact getAncestorsAux_anc_subset cs (anc ++ [x]) (pushParents c stk) x (by simp)
    · exact ih x (pushParents_mem_iff.mpr (Or.inr (Or.inr h))) hxne
  | case4 anc cur stk hcur hf ih =>
    intro x hx hxne
    rw [getAncestorsAux_missing cs stk hcur hf]
    rcases List.mem_cons.mp hx with rfl | h
    · exact getAncestorsAux_anc_subset cs (anc ++ [x]) stk x (by simp)
    · exact ih x h hxne

/-- Closedness of the final visited set: parents of everything the walk
visited are in the result, provided the pending parents of the input visited
set are all on the stack. -/
theorem getAncestorsAux_closed (cs : List Commit) (anc stk : List String) :
    (∀ b ∈ anc, ∀ p ∈ parentIds cs b, p ∈ anc ∨ p ∈ stk) →
    ∀ b ∈ getAncestorsAux cs anc stk, ∀ p ∈ parentIds cs b,
      p ∈ getAncestorsAux cs anc stk := by
  induction anc, stk using getAncestorsAux.induct cs with
  | case1 anc =>
    intro hinv b hb p hp
    rw [getAncestorsAux_nil] at hb ⊢
    rcases hinv b hb p hp with h | h
    · exact h
    · cases h
  | case2 anc cur stk hcur ih =>
    intro hinv
    rw [getAncestorsAux_visited cs stk hcur]
    refine ih ?_
    intro b hb p hp
    rcases hinv b hb p hp with h | h
    · exact Or.inl h
    · rcases List.mem_cons.mp h with rfl | h2
      · rcases hcur with hemp | hmem
        · rcases mem_parentIds_iff.mp hp with ⟨c2, _, hcase⟩
          rcases hcase with ⟨_, hne⟩ | ⟨_, hne⟩ <;> exact absurd hemp hne
        · exact Or.inl hmem
      · exact Or.inr h2
  | case3 anc cur stk hcur c hf ih =>
    intro hinv
    rw [getAncestorsAux_found cs stk hcur hf]
    refine ih ?_
    intro b hb p hp
    rcases List.mem_append.mp hb with h | h
    · rcases hinv b h p hp with h2 | h2
      · exact Or.inl (by simp [h2])
      · rcases List.mem_cons.mp h2 with rfl | h3
        · exact Or.inl (by simp)
        · exact Or.inr (pushParents_mem_iff.mpr (Or.inr (Or.inr h3)))
    · rw [List.mem_singleton] at h
      subst h
      rcases mem_parentIds_iff.mp hp with ⟨c2, hf2, hcase⟩
      rw [hf] at hf2
      cases hf2
      exact Or.inr (pushParents_mem_iff.mpr (by tauto))
  | case4 anc cur stk hcur hf ih =>
    intro hinv
    rw [getAncestorsAux_missing cs stk hcur hf]
    refine ih ?_
    intro b hb p hp
    rcases List.mem_append.mp hb with h | h
    · rcases hinv b h p hp with h2 | h2
      · exact Or.inl (by simp [h2])
      · rcases List.mem_cons.mp h2 with rfl | h3
        · exact Or.inl (by simp)
        · exact Or.inr h3
    · rw [List.mem_singleton] at h
      subst h
      rcases mem_parentIds_iff.mp hp with ⟨c2, hf2, _⟩
      rw [hf] at hf2
      cases hf2

/-- `getAncestors` of an empty (falsy) start id: the loop guard skips the
only stacked id, so nothing is visited. -/
theorem getAncestors_empty (cs : List Commit) : getAncestors "" cs = [] := by
  rw [getAncestors, getAncestorsAux_visited cs [] (Or.inl rfl), getAncestorsAux_nil]

/-- `getAncestors` returns exactly the ids reachable from the start id, once
the start id itself passes the loop's truthiness guard; a falsy start id
yields the empty set (`getAncestors_empty`). -/
theorem getAncestors_iff (commitId : String) (cs : List Commit) (i : String) :
    i ∈ getAncestors commitId cs ↔ (commitId ≠ "" ∧ ReachesId cs commitId i) := by
  by_cases hc : commitId = ""
  · subst hc
    rw [getAncestors_empty]
    constructor
    · intro hi
      cases hi
    · rintro ⟨hne, _⟩
      exact absurd rfl hne
  · constructor
    · intro hi
      refine ⟨hc, getAncestorsAux_sound cs (ReachesId cs commitId) ?_ [] [commitId]
        (by intro a ha; cases ha) ?_ i hi⟩
      · intro b hb p hp
        rcases mem_parentIds_iff.mp hp with ⟨c, hf, hcase⟩
        rcases hcase with ⟨hpar, hne⟩ | ⟨hpar, hne⟩
        · exact ReachesId.parentStep hb hf hpar hne
        · exact ReachesId.mergeStep hb hf hpar hne
      · intro x hx
        rw [List.mem_singleton] at hx
        exact hx ▸ ReachesId.refl
    · rintro ⟨_, hr⟩
      induction hr with
      | refl => exact getAncestorsAux_stk_subset cs [] [commitId] commitId (by simp) hc
      | parentStep hb hf hpar hne ih =>
        exact getAncestorsAux_closed cs [] [commitId] (by intro b hb2; cases hb2) _ ih _
          (mem_parentIds_iff.mpr ⟨_, hf, Or.inl ⟨hpar, hne⟩⟩)
      | mergeStep hb hf hpar hne ih =>
        exact getAncestorsAux_closed cs [] [commitId] (by intro b hb2; cases hb2) _ ih _
          (mem_parentIds_iff.mpr ⟨_, hf, Or.inr ⟨hpar, hne⟩⟩)

/-! ## Push lemmas -/


theorem alookup_aset_self {α : Type} (m : List (String × α)) (k : String) (v : α) :
    alookup (aset m k v) k = some v := by
  induction m with
  | nil => simp [aset, alookup]
  | cons e rest ih =>
    obtain ⟨k2, v2⟩ := e
    by_cases h : k2 = k
    · simp [aset, h, alookup]
    · simp [aset, h, alookup, ih]

theorem copyAncestors_eq_foldl (commits : List Commit) (ancestors : List String)
    (rc : List Commit) :
    copyAncestors commits ancestors rc = ancestors.foldl (copyStep commits) rc := by
  unfold copyAncestors copyStep
  rfl

theorem copyStep_mono (commits : List Commit) (acc : List Commit) (aid : String)
    {x : String} (h : ∃ c ∈ acc, c.id = x) : ∃ c ∈ copyStep commits acc aid, c.id = x := by
  unfold copyStep
  obtain ⟨c, hc, hid⟩ := h
  split
  · exact ⟨c, hc, hid⟩
  · split
    · exact ⟨c, List.mem_append_left _ hc, hid⟩
    · exact ⟨c, hc, hid⟩

theorem copyAncestors_mono (commits : List Commit) (ancestors : List String)
    (rc : List Commit) {x : String} (h : ∃ c ∈ rc, c.id = x) :
    ∃ c ∈ copyAncestors commits ancestors rc, c.id = x := by
  rw [copyAncestors_eq_foldl]
  induction ancestors generalizing rc with
  | nil => exact h
  | cons a as ih =>
    rw [List.foldl_cons]
    exact ih _ (copyStep_mono commits rc a h)

theorem copyStep_covers (commits : List Commit) (acc : List Commit) (aid : String)
    (hfind : (∃ c ∈ commits, c.id = aid)) :
    ∃ c ∈ copyStep commits acc aid, c.id = aid := by
  unfold copyStep
  split
  · rename_i hs
    rw [Option.isSome_iff_exists] at hs
    obtain ⟨c, hc⟩ := hs
    refine ⟨c, List.mem_of_find?_eq_some hc, ?_⟩
    have := List.find?_some hc
    simpa using this
  · rcases hcf : findCommit commits aid with _ | c
    · obtain ⟨c, hc, hid⟩ := hfind
      have : (findCommit commits aid).isSome := by
        unfold findCommit
        rw [List.find?_isSome]
        exact ⟨c, hc, by simp [hid]⟩
      rw [hcf] at this
      cases this
    · refine ⟨c, by simp, ?_⟩
      have := List.find?_some hcf
      simpa using this

theorem copyAncestors_covers (commits : List Commit) (ancestors : List String)
    (rc : List Commit) {aid : String} (ha : aid ∈ ancestors)
    (hfind : ∃ c ∈ commits, c.id = aid) :
    ∃ c ∈ copyAncestors commits ancestors rc, c.id = aid := by
  rw [copyAncestors_eq_foldl]
  induction ancestors generalizing rc with
  | nil => cases ha
  | cons a as ih =>
    rw [List.foldl_cons]
    rcases List.mem_cons.mp ha with rfl | h
    · -- covered by this step, then monotone over the rest
      have step := copyStep_covers commits rc aid hfind
      have : ∃ c ∈ as.foldl (copyStep commits) (copyStep commits rc aid), c.id = aid := by
        have := copyAncestors_mono commits as (copyStep commits rc aid) step
        rwa [copyAncestors_eq_foldl] at this
      exact this
    · exact ih (copyStep commits rc a) h

theorem otruthy_some {s : String} (h : s ≠ "") : otruthy (some s) = true := by
  simp [otruthy, h]

theorem formatOutput_git (ctx : RunCtx) (args pp : List String) (t : String) (ty : OutType)
    (s : GameState) : (formatOutput ctx args pp t ty s).newState.git = s.git := by
  unfold formatOutput
  dsimp only
  split <;> rfl

/-- After a successful push, the remote branch pointer equals the local
commit id and the remote commits cover the full reachable ancestor set. -/
theorem pushCore_spec (ctx : RunCtx) (args pp : List String) (s : GameState)
    (rn b : String) (remote : RemoteRepo) (cid : String)
    (hrn : rn ≠ "") (hb : b ≠ "")
    (hr : alookup s.git.remotes rn = some remote)
    (hcid : alookup s.git.branches b = some cid) (hne : cid ≠ "") :
    ∃ remote2,
      alookup (pushCore ctx args pp (some rn) (some b) s).newState.git.remotes rn = some remote2 ∧
      alookup remote2.branches b = some cid ∧
      ∀ c ∈ s.git.commits, ReachesId s.git.commits cid c.id →
        ∃ c2 ∈ remote2.commits, c2.id = c.id := by
  have h4 : otruthy (some cid) = true := otruthy_some hne
  unfold pushCore
  rw [show argStr (some rn) = rn from rfl]
  simp only [otruthy_some hrn, otruthy_some hb, hr, hcid, h4, Option.isNone_some,
    Bool.not_true, Bool.false_or, Bool.or_false, if_false, Option.getD_some,
    Bool.false_eq_true, show argStr (some b) = b from rfl]
  rw [formatOutput_git]
  refine ⟨_, alookup_aset_self _ _ _, alookup_aset_self _ _ _, ?_⟩
  intro c hc hreach
  have hidmem : c.id ∈ getAncestors cid s.git.commits :=
    (getAncestors_iff cid s.git.commits c.id).mpr ⟨hne, hreach⟩
  exact copyAncestors_covers s.git.commits _ remote.commits hidmem ⟨c, hc, rfl⟩

/-! ## Failure framing lemmas -/


theorem frameExceptLast_refl (s : GameState) : frameExceptLast s s :=
  ⟨rfl, rfl, rfl, rfl, rfl, rfl⟩

theorem frameExceptLast_setLast (s : GameState) (t : String) :
    frameExceptLast s (setLast s t) :=
  ⟨rfl, rfl, rfl, rfl, rfl, rfl⟩

/-- An error-classified `formatOutput` result implies the classification was
`error` going in, and the state is intact apart from `lastCommandOutput`. -/
theorem fo_error (ctx : RunCtx) (args pp : List String) (t : String) (ty : OutType)
    (s : GameState) (h : (formatOutput ctx args pp t ty s).type = .error) :
    ty = .error ∧ frameExceptLast s (formatOutput ctx args pp t ty s).newState := by
  revert h
  unfold formatOutput
  dsimp only
  split
  · intro h
    cases h
  · intro h
    cases h
    exact ⟨rfl, frameExceptLast_setLast _ _⟩

theorem ErrFrame_ite {c : Prop} [Decidable c] {s : GameState} {a b : CommandResult}
    (ha : ErrFrame s a) (hb : ErrFrame s b) : ErrFrame s (if c then a else b) := by
  by_cases h : c
  · rw [if_pos h]
    exact ha
  · rw [if_neg h]
    exact hb

theorem errFrame_fo_self {ctx : RunCtx} {args pp : List String} {t : String} {ty : OutType}
    {s : GameState} : ErrFrame s (formatOutput ctx args pp t ty s) :=
  fun h => (fo_error _ _ _ _ _ _ h).2

theorem errFrame_fo_ne {ctx : RunCtx} {args pp : List String} {t : String} {ty : OutType}
    {s s2 : GameState} (hty : ty ≠ OutType.error) :
    ErrFrame s (formatOutput ctx args pp t ty s2) :=
  fun h => absurd (fo_error _ _ _ _ _ _ h).1 hty

theorem cmdEcho_error_frame (ctx : RunCtx) (args pp : List String) (s : GameState)
    (h : (cmdEcho ctx args pp s).type = .error) :
    frameExceptLast s (cmdEcho ctx args pp s).newState := by
  revert h
  simp only [cmdEcho]
  repeat' split
  all_goals intro h
  all_goals first
    | exact (fo_error _ _ _ _ _ _ h).2
    | exact absurd (fo_error _ _ _ _ _ _ h).1 (by decide)
    | exact absurd h (by decide)
    | exact frameExceptLast_refl _
    | cases h
    | simp at h

theorem cmdCat_error_frame (ctx : RunCtx) (args pp : List String) (s : GameState)
    (h : (cmdCat ctx args pp s).type = .error) :
    frameExceptLast s (cmdCat ctx args pp s).newState := by
  revert h
  simp only [cmdCat]
  repeat' split
  all_goals intro h
  all_goals first
    | exact (fo_error _ _ _ _ _ _ h).2
    | exact absurd (fo_error _ _ _ _ _ _ h).1 (by decide)
    | exact absurd h (by decide)
    | exact frameExceptLast_refl _
    | cases h
    | simp at h

theorem cmdVim_error_frame (ctx : RunCtx) (args pp : List String) (s : GameState)
    (h : (cmdVim ctx args pp s).type = .error) :
    frameExceptLast s (cmdVim ctx args pp s).newState := by
  revert h
  simp only [cmdVim]
  repeat' split
  all_goals intro h
  all_goals first
    | exact (fo_error _ _ _ _ _ _ h).2
    | exact absurd (fo_error _ _ _ _ _ _ h).1 (by decide)
    | exact absurd h (by decide)
    | exact frameExceptLast_refl _
    | cases h
    | simp at h

theorem cmdExport_error_frame (ctx : RunCtx) (args pp : List String) (s : GameState)
    (h : (cmdExport ctx args pp s).type = .error) :
    frameExceptLast s (cmdExport ctx args pp s).newState := by
  revert h
  simp only [cmdExport]
  repeat' split
  all_goals intro h
  all_goals first
    | exact (fo_error _ _ _ _ _ _ h).2
    | exact absurd (fo_error _ _ _ _ _ _ h).1 (by decide)
    | exact absurd h (by decide)
    | exact frameExceptLast_refl _
    | cases h
    | simp at h

theorem cmdLs_error_frame (ctx : RunCtx) (args pp : List String) (s : GameState)
    (h : (cmdLs ctx args pp s).type = .error) :
    frameExceptLast s (cmdLs ctx args pp s).newState := by
  revert h
  simp only [cmdLs]
  repeat' split
  all_goals intro h
  all_goals first
    | exact (fo_error _ _ _ _ _ _ h).2
    | exact absurd (fo_error _ _ _ _ _ _ h).1 (by decide)
    | exact absurd h (by decide)
    | exact frameExceptLast_refl _
    | cases h
    | simp at h

theorem cmdCd_error_frame (ctx : RunCtx) (args pp : List String) (s : GameState)
    (h : (cmdCd ctx args pp s).type = .error) :
    frameExceptLast s (cmdCd ctx args pp s).newState := by
  revert h
  simp only [cmdCd]
  repeat' split
  all_goals intro h
  all_goals first
    | exact (fo_error _ _ _ _ _ _ h).2
    | exact absurd (fo_error _ _ _ _ _ _ h).1 (by decide)
    | exact absurd h (by decide)
    | exact frameExceptLast_refl _
    | cases h
    | simp at h

theorem cmdMkdir_error_frame (ctx : RunCtx) (args pp : List String) (s : GameState)
    (h : (cmdMkdir ctx args pp s).type = .error) :
    frameExceptLast s (cmdMkdir ctx args pp s).newState := by
  revert h
  simp only [cmdMkdir]
  repeat' split
  all_goals intro h
  all_goals first
    | exact (fo_error _ _ _ _ _ _ h).2
    | exact absurd (fo_error _ _ _ _ _ _ h).1 (by decide)
    | exact absurd h (by decide)
    | exact frameExceptLast_refl _
    | cases h
    | simp at h

theorem cmdTouch_error_frame (ctx : RunCtx) (args pp : List String) (s : GameState)
    (h : (cmdTouch ctx args pp s).type = .error) :
    frameExceptLast s (cmdTouch ctx args pp s).newState := by
  revert h
  simp only [cmdTouch]
  repeat' split
  all_goals intro h
  all_goals first
    | exact (fo_error _ _ _ _ _ _ h).2
    | exact absurd (fo_error _ _ _ _ _ _ h).1 (by decide)
    | exact absurd h (by decide)
    | exact frameExceptLast_refl _
    | cases h
    | simp at h

theorem cmdRm_error_frame (ctx : RunCtx) (args pp : List String) (s : GameState)
    (h : (cmdRm ctx args pp s).type = .error) :
    frameExceptLast s (cmdRm ctx args pp s).newState := by
  revert h
  simp only [cmdRm]
  repeat' split
  all_goals intro h
  all_goals first
    | exact (fo_error _ _ _ _ _ _ h).2
    | exact absurd (fo_error _ _ _ _ _ _ h).1 (by decide)
    | exact absurd h (by decide)
    | exact frameExceptLast_refl _
    | cases h
    | simp at h

theorem cmdGrep_error_frame (ctx : RunCtx) (args pp : List String) (s : GameState)
    (h : (cmdGrep ctx args pp s).type = .error) :
    frameExceptLast s (cmdGrep ctx args pp s).newState := by
  revert h
  simp only [cmdGrep]
  repeat' split
  all_goals intro h
  all_goals first
    | exact (fo_error _ _ _ _ _ _ h).2
    | exact absurd (fo_error _ _ _ _ _ _ h).1 (by decide)
    | exact absurd h (by decide)
    | exact frameExceptLast_refl _
    | cases h
    | simp at h

theorem cmdFind_error_frame (ctx : RunCtx) (args pp : List String) (s : GameState)
    (h : (cmdFind ctx args pp s).type = .error) :
    frameExceptLast s (cmdFind ctx args pp s).newState := by
  revert h
  simp only [cmdFind]
  repeat' split
  all_goals intro h
  all_goals first
    | exact (fo_error _ _ _ _ _ _ h).2
    | exact absurd (fo_error _ _ _ _ _ _ h).1 (by decide)
    | exact absurd h (by decide)
    | exact frameExceptLast_refl _
    | cases h
    | simp at h

theorem cmdChmod_error_frame (ctx : RunCtx) (args pp : List String) (s : GameState)
    (h : (cmdChmod ctx args pp s).type = .error) :
    frameExceptLast s (cmdChmod ctx args pp s).newState := by
  revert h
  simp only [cmdChmod]
  repeat' split
  all_goals intro h
  all_goals first
    | exact (fo_error _ _ _ _ _ _ h).2
    | exact absurd (fo_error _ _ _ _ _ _ h).1 (by decide)
    | exact absurd h (by decide)
    | exact frameExceptLast_refl _
    | cases h
    | simp at h

theorem cmdHead_error_frame (ctx : RunCtx) (args pp : List String) (s : GameState)
    (h : (cmdHead ctx args pp s).type = .error) :
    frameExceptLast s (cmdHead ctx args pp s).newState := by
  revert h
  simp only [cmdHead]
  repeat' split
  all_goals intro h
  all_goals first
    | exact (fo_error _ _ _ _ _ _ h).2
    | exact absurd (fo_error _ _ _ _ _ _ h).1 (by decide)
    | exact absurd h (by decide)
    | exact frameExceptLast_refl _
    | cases h
    | simp at h

theorem cmdTail_error_frame (ctx : RunCtx) (args pp : List String) (s : GameState)
    (h : (cmdTail ctx args pp s).type = .error) :
    frameExceptLast s (cmdTail ctx args pp s).newState := by
  revert h
  simp only [cmdTail]
  repeat' split
  all_goals intro h
  all_goals first
    | exact (fo_error _ _ _ _ _ _ h).2
    | exact absurd (fo_error _ _ _ _ _ _ h).1 (by decide)
    | exact absurd h (by decide)
    | exact frameExceptLast_refl _
    | cases h
    | simp at h

theorem cmdWc_error_frame (ctx : RunCtx) (args pp : List String) (s : GameState)
    (h : (cmdWc ctx args pp s).type = .error) :
    frameExceptLast s (cmdWc ctx args pp s).newState := by
  revert h
  simp only [cmdWc]
  repeat' split
  all_goals intro h
  all_goals first
    | exact (fo_error _ _ _ _ _ _ h).2
    | exact absurd (fo_error _ _ _ _ _ _ h).1 (by decide)
    | exact absurd h (by decide)
    | exact frameExceptLast_refl _
    | cases h
    | simp at h

theorem gitAddH_error_frame (ctx : RunCtx) (args pp : List String) (s : GameState)
    (h : (gitAddH ctx args pp s).type = .error) :
    frameExceptLast s (gitAddH ctx args pp s).newState := by
  revert h
  simp only [gitAddH]
  repeat' split
  all_goals intro h
  all_goals first
    | exact (fo_error _ _ _ _ _ _ h).2
    | exact absurd (fo_error _ _ _ _ _ _ h).1 (by decide)
    | exact absurd h (by decide)
    | exact frameExceptLast_refl _
    | cases h
    | simp at h

theorem gitCommitH_error_frame (ctx : RunCtx) (args pp : List String) (s : GameState)
    (h : (gitCommitH ctx args pp s).type = .error) :
    frameExceptLast s (gitCommitH ctx args pp s).newState := by
  revert h
  simp only [gitCommitH]
  repeat' split
  all_goals intro h
  all_goals first
    | exact (fo_error _ _ _ _ _ _ h).2
    | exact absurd (fo_error _ _ _ _ _ _ h).1 (by decide)
    | exact absurd h (by decide)
    | exact frameExceptLast_refl _
    | cases h
    | simp at h

theorem gitBranchRest_error_frame (ctx : RunCtx) (args pp : List String) (s : GameState)
    (h : (gitBranchRest ctx args pp s).type = .error) :
    frameExceptLast s (gitBranchRest ctx args pp s).newState := by
  revert h
  simp only [gitBranchRest]
  repeat' split
  all_goals intro h
  all_goals first
    | exact (fo_error _ _ _ _ _ _ h).2
    | exact absurd (fo_error _ _ _ _ _ _ h).1 (by decide)
    | exact absurd h (by decide)
    | exact frameExceptLast_refl _
    | cases h
    | simp at h

theorem gitMergeH_error_frame (ctx : RunCtx) (args pp : List String) (s : GameState)
    (h : (gitMergeH ctx args pp s).type = .error) :
    frameExceptLast s (gitMergeH ctx args pp s).newState := by
  revert h
  simp only [gitMergeH]
  repeat' split
  all_goals intro h
  all_goals first
    | exact (fo_error _ _ _ _ _ _ h).2
    | exact absurd (fo_error _ _ _ _ _ _ h).1 (by decide)
    | exact absurd h (by decide)
    | exact frameExceptLast_refl _
    | cases h
    | simp at h

theorem gitStashH_error_frame (ctx : RunCtx) (args pp : List String) (s : GameState)
    (h : (gitStashH ctx args pp s).type = .error) :
    frameExceptLast s (gitStashH ctx args pp s).newState := by
  revert h
  simp only [gitStashH]
  repeat' split
  all_goals intro h
  all_goals first
    | exact (fo_error _ _ _ _ _ _ h).2
    | exact absurd (fo_error _ _ _ _ _ _ h).1 (by decide)
    | exact absurd h (by decide)
    | exact frameExceptLast_refl _
    | cases h
    | simp at h

theorem gitResetH_error_frame (ctx : RunCtx) (args pp : List String) (s : GameState)
    (h : (gitResetH ctx args pp s).type = .error) :
    frameExceptLast s (gitResetH ctx args pp s).newState := by
  revert h
  simp only [gitResetH]
  repeat' split
  all_goals intro h
  all_goals first
    | exact (fo_error _ _ _ _ _ _ h).2
    | exact absurd (fo_error _ _ _ _ _ _ h).1 (by decide)
    | exact absurd h (by decide)
    | exact frameExceptLast_refl _
    | cases h
    | simp at h

theorem gitRevertH_error_frame (ctx : RunCtx) (args pp : List String) (s : GameState)
    (h : (gitRevertH ctx args pp s).type = .error) :
    frameExceptLast s (gitRevertH ctx args pp s).newState := by
  revert h
  simp only [gitRevertH]
  repeat' split
  all_goals intro h
  all_goals first
    | exact (fo_error _ _ _ _ _ _ h).2
    | exact absurd (fo_error _ _ _ _ _ _ h).1 (by decide)
    | exact absurd h (by decide)
    | exact frameExceptLast_refl _
    | cases h
    | simp at h

theorem gitFetchH_error_frame (ctx : RunCtx) (args pp : List String) (s : GameState)
    (h : (gitFetchH ctx args pp s).type = .error) :
    frameExceptLast s (gitFetchH ctx args pp s).newState := by
  revert h
  simp only [gitFetchH]
  repeat' split
  all_goals intro h
  all_goals first
    | exact (fo_error _ _ _ _ _ _ h).2
    | exact absurd (fo_error _ _ _ _ _ _ h).1 (by decide)
    | exact absurd h (by decide)
    | exact frameExceptLast_refl _
    | cases h
    | simp at h

theorem gitPullH_error_frame (ctx : RunCtx) (args pp : List String) (s : GameState)
    (h : (gitPullH ctx args pp s).type = .error) :
    frameExceptLast s (gitPullH ctx args pp s).newState := by
  revert h
  simp only [gitPullH]
  repeat' split
  all_goals intro h
  all_goals first
    | exact (fo_error _ _ _ _ _ _ h).2
    | exact absurd (fo_error _ _ _ _ _ _ h).1 (by decide)
    | exact absurd h (by decide)
    | exact frameExceptLast_refl _
    | cases h
    | simp at h

theorem gitLogH_error_frame (ctx : RunCtx) (args pp : List String) (s : GameState)
    (h : (gitLogH ctx args pp s).type = .error) :
    frameExceptLast s (gitLogH ctx args pp s).newState := by
  revert h
  simp only [gitLogH]
  repeat' split
  all_goals intro h
  all_goals first
    | exact (fo_error _ _ _ _ _ _ h).2
    | exact absurd (fo_error _ _ _ _ _ _ h).1 (by decide)
    | exact absurd h (by decide)
    | exact frameExceptLast_refl _
    | cases h
    | simp at h

theorem pushCore_error_frame (ctx : RunCtx) (args pp : List String)
    (rn b : Option String) (s : GameState)
    (h : (pushCore ctx args pp rn b s).type = .error) :
    frameExceptLast s (pushCore ctx args pp rn b s).newState := by
  revert h
  simp only [pushCore]
  repeat' split
  all_goals intro h
  all_goals first
    | exact (fo_error _ _ _ _ _ _ h).2
    | exact absurd (fo_error _ _ _ _ _ _ h).1 (by decide)
    | exact absurd h (by decide)
    | exact frameExceptLast_refl _
    | cases h
    | simp at h

theorem gitPushH_error_frame (ctx : RunCtx) (args pp : List String) (s : GameState)
    (h : (gitPushH ctx args pp s).type = .error) :
    frameExceptLast s (gitPushH ctx args pp s).newState := by
  revert h
  simp only [gitPushH]
  repeat' split
  all_goals intro h
  all_goals exact pushCore_error_frame _ _ _ _ _ _ h

theorem gitBranchH_error_frame (ctx : RunCtx) (args pp : List String) (s : GameState)
    (h : (gitBranchH ctx args pp s).type = .error) :
    frameExceptLast s (gitBranchH ctx args pp s).newState := by
  revert h
  simp only [gitBranchH]
  repeat' split
  all_goals intro h
  all_goals first
    | exact (fo_error _ _ _ _ _ _ h).2
    | exact absurd (fo_error _ _ _ _ _ _ h).1 (by decide)
    | exact gitBranchRest_error_frame _ _ _ _ h
    | exact absurd h (by decide)
    | exact frameExceptLast_refl _
    | cases h
    | simp at h

theorem gitCheckoutH_error_frame (ctx : RunCtx) (args pp : List String) (s : GameState)
    (isSwitch : Bool) (h : (gitCheckoutH ctx args pp s isSwitch).type = .error) :
    frameExceptLast s (gitCheckoutH ctx args pp s isSwitch).newState := by
  revert h
  simp only [gitCheckoutH]
  repeat' split
  all_goals intro h
  all_goals first
    | exact (fo_error _ _ _ _ _ _ h).2
    | exact absurd (fo_error _ _ _ _ _ _ h).1 (by decide)
    | exact absurd h (by decide)
    | exact frameExceptLast_refl _
    | cases h
    | simp at h

theorem gitCmd_error_frame (ctx : RunCtx) (args pp : List String) (s : GameState)
    (h : (gitCmd ctx args pp s).type = .error) :
    frameExceptLast s (gitCmd ctx args pp s).newState := by
  revert h
  show ErrFrame s (gitCmd ctx args pp s)
  simp only [gitCmd]
  exact ErrFrame_ite errFrame_fo_self
    (ErrFrame_ite (errFrame_fo_ne (by decide))
    (ErrFrame_ite errFrame_fo_self
    (ErrFrame_ite (errFrame_fo_ne (by decide))
    (ErrFrame_ite errFrame_fo_self
    (ErrFrame_ite (fun h => by simp [gitStatusH] at h)
    (ErrFrame_ite (fun h => gitAddH_error_frame _ _ _ _ h)
    (ErrFrame_ite (fun h => gitCommitH_error_frame _ _ _ _ h)
    (ErrFrame_ite (fun h => gitBranchH_error_frame _ _ _ _ h)
    (ErrFrame_ite (fun h => gitCheckoutH_error_frame _ _ _ _ _ h)
    (ErrFrame_ite (fun h => gitMergeH_error_frame _ _ _ _ h)
    (ErrFrame_ite (fun h => gitPushH_error_frame _ _ _ _ h)
    (ErrFrame_ite (fun h => gitStashH_error_frame _ _ _ _ h)
    (ErrFrame_ite (fun h => gitResetH_error_frame _ _ _ _ h)
    (ErrFrame_ite (fun h => gitRevertH_error_frame _ _ _ _ h)
    (ErrFrame_ite (fun h => gitFetchH_error_frame _ _ _ _ h)
    (ErrFrame_ite (fun h => gitPullH_error_frame _ _ _ _ h)
    (ErrFrame_ite (fun h => gitLogH_error_frame _ _ _ _ h)
      errFrame_fo_self)))))))))))))))))

theorem runParsed_error_frame (ctx : RunCtx) (args pp : List String) (s : GameState)
    (h : (runParsed ctx args pp s).type = .error) :
    frameExceptLast s (runParsed ctx args pp s).newState := by
  revert h
  show ErrFrame s (runParsed ctx args pp s)
  cases args with
  | nil => exact fun h => nomatch h
  | cons command rest =>
    simp only [runParsed]
    exact ErrFrame_ite (fun h => cmdEcho_error_frame _ _ _ _ h)
      (ErrFrame_ite (fun h => cmdCat_error_frame _ _ _ _ h)
      (ErrFrame_ite (fun h => cmdVim_error_frame _ _ _ _ h)
      (ErrFrame_ite (fun h => cmdExport_error_frame _ _ _ _ h)
      (ErrFrame_ite errFrame_fo_self
      (ErrFrame_ite (fun h => cmdLs_error_frame _ _ _ _ h)
      (ErrFrame_ite (fun h => cmdCd_error_frame _ _ _ _ h)
      (ErrFrame_ite (fun h => cmdMkdir_error_frame _ _ _ _ h)
      (ErrFrame_ite (fun h => cmdTouch_error_frame _ _ _ _ h)
      (ErrFrame_ite (fun h => cmdRm_error_frame _ _ _ _ h)
      (ErrFrame_ite (fun h => cmdGrep_error_frame _ _ _ _ h)
      (ErrFrame_ite (fun h => cmdFind_error_frame _ _ _ _ h)
      (ErrFrame_ite (fun h => cmdChmod_error_frame _ _ _ _ h)
      (ErrFrame_ite (fun h => cmdHead_error_frame _ _ _ _ h)
      (ErrFrame_ite (fun h => cmdTail_error_frame _ _ _ _ h)
      (ErrFrame_ite (fun h => cmdWc_error_frame _ _ _ _ h)
      (ErrFrame_ite errFrame_fo_self
      (ErrFrame_ite errFrame_fo_self
      (ErrFrame_ite errFrame_fo_self
      (ErrFrame_ite errFrame_fo_self
      (ErrFrame_ite (fun h => gitCmd_error_frame _ _ _ _ h)
        errFrame_fo_self))))))))))))))))))))

theorem runSingleCommand_error_frame_aux (ctx : RunCtx) (cmd : String) (s : GameState)
    (h : (runSingleCommand ctx cmd s).type = .error) :
    frameExceptLast s (runSingleCommand ctx cmd s).newState := by
  revert h
  simp only [runSingleCommand]
  split
  · intro h
    exact frameExceptLast_refl _
  · intro h
    exact runParsed_error_frame _ _ _ _ h

/-! ## Dispatch and output-formatting reduction lemmas -/

theorem runParsed_git (ctx : RunCtx) (pp : List String) (s : GameState) (rest : List String) :
    runParsed ctx ("git" :: rest) pp s = gitCmd ctx ("git" :: rest) pp s := by
  simp [runParsed]

theorem gitCmd_commit (ctx : RunCtx) (pp : List String) (s : GameState) (rest : List String)
    (hinit : s.git.repoInitialized = true) :
    gitCmd ctx ("git" :: "commit" :: rest) pp s =
      gitCommitH ctx ("git" :: "commit" :: rest) pp s := by
  simp [gitCmd, argGet, argStr, otruthy, hinit]

theorem gitCmd_merge (ctx : RunCtx) (pp : List String) (s : GameState) (rest : List String)
    (hinit : s.git.repoInitialized = true) :
    gitCmd ctx ("git" :: "merge" :: rest) pp s =
      gitMergeH ctx ("git" :: "merge" :: rest) pp s := by
  simp [gitCmd, argGet, argStr, otruthy, hinit]

theorem gitCmd_stash (ctx : RunCtx) (pp : List String) (s : GameState) (rest : List String)
    (hinit : s.git.repoInitialized = true) :
    gitCmd ctx ("git" :: "stash" :: rest) pp s =
      gitStashH ctx ("git" :: "stash" :: rest) pp s := by
  simp [gitCmd, argGet, argStr, otruthy, hinit]

theorem gitCmd_reset (ctx : RunCtx) (pp : List String) (s : GameState) (rest : List String)
    (hinit : s.git.repoInitialized = true) :
    gitCmd ctx ("git" :: "reset" :: rest) pp s =
      gitResetH ctx ("git" :: "reset" :: rest) pp s := by
  simp [gitCmd, argGet, argStr, otruthy, hinit]

theorem gitCmd_push (ctx : RunCtx) (pp : List String) (s : GameState) (rest : List String)
    (hinit : s.git.repoInitialized = true) :
    gitCmd ctx ("git" :: "push" :: rest) pp s =
      gitPushH ctx ("git" :: "push" :: rest) pp s := by
  simp [gitCmd, argGet, argStr, otruthy, hinit]

theorem gitCmd_status (ctx : RunCtx) (pp : List String) (s : GameState) (rest : List String)
    (hinit : s.git.repoInitialized = true) :
    gitCmd ctx ("git" :: "status" :: rest) pp s = gitStatusH s := by
  simp [gitCmd, argGet, argStr, otruthy, hinit]

theorem redirectWrite_git4 (ctx : RunCtx) (s : GameState) (t c1 c2 x : String)
    (h1a : c1 ≠ ">") (h1b : c1 ≠ ">>") (h2a : c2 ≠ ">") (h2b : c2 ≠ ">>") :
    redirectWrite ctx ["git", c1, c2, x] s t = none := by
  by_cases hx : x = ">"
  · subst hx
    simp [redirectWrite, idxOf, argGet, h1a, h1b, h2a, h2b]
  · by_cases hx2 : x = ">>"
    · subst hx2
      simp [redirectWrite, idxOf, argGet, h1a, h1b, h2a, h2b]
    · simp [redirectWrite, idxOf, argGet, h1a, h1b, h2a, h2b, hx, hx2]

theorem redirectWrite_git3 (ctx : RunCtx) (s : GameState) (t c1 x : String)
    (h1a : c1 ≠ ">") (h1b : c1 ≠ ">>") :
    redirectWrite ctx ["git", c1, x] s t = none := by
  by_cases hx : x = ">"
  · subst hx
    simp [redirectWrite, idxOf, argGet, h1a, h1b]
  · by_cases hx2 : x = ">>"
    · subst hx2
      simp [redirectWrite, idxOf, argGet, h1a, h1b]
    · simp [redirectWrite, idxOf, argGet, h1a, h1b, hx, hx2]

theorem redirectWrite_git2 (ctx : RunCtx) (s : GameState) (t x : String)
    (hxa : x ≠ ">") (hxb : x ≠ ">>") :
    redirectWrite ctx ["git", x] s t = none := by
  simp [redirectWrite, idxOf, argGet, hxa, hxb]

theorem grepPipe_error (pp : List String) (t : String) : grepPipe pp t .error = t := by
  simp [grepPipe]

theorem grepPipe_short (pp : List String) (t : String) (ty : OutType)
    (h : ¬ pp.length > 1) : grepPipe pp t ty = t := by
  simp [grepPipe, h]

/-- `formatOutput` when no redirect applies: the grep-piped text is returned
with its classification and recorded in `lastCommandOutput`. -/
theorem formatOutput_eval (ctx : RunCtx) (args pp : List String) (t : String) (ty : OutType)
    (s : GameState) (hred : ∀ u, redirectWrite ctx args s u = none) :
    formatOutput ctx args pp t ty s =
      ⟨grepPipe pp t ty, ty, setLast s (grepPipe pp t ty), none⟩ := by
  unfold formatOutput
  simp only [hred]

/-- `git commit -m <msg>` with empty staging reaches the nothing-to-commit
branch. -/
theorem gitCommitH_nothing (ctx : RunCtx) (pp : List String) (s : GameState) (msg : String)
    (hstage : s.git.staging = []) (hmsg : msg ≠ "") :
    gitCommitH ctx ["git", "commit", "-m", msg] pp s =
      formatOutput ctx ["git", "commit", "-m", msg] pp "nothing to commit, working tree clean" .info s := by
  simp [gitCommitH, idxOf, argGet, otruthy_some hmsg, hstage]

/-- `git commit` without `-m` reaches the missing-message error. -/
theorem gitCommitH_noMsg2 (ctx : RunCtx) (pp : List String) (s : GameState) :
    gitCommitH ctx ["git", "commit"] pp s =
      formatOutput ctx ["git", "commit"] pp "error: switch `m` requires a value" .error s := by
  simp [gitCommitH, idxOf, argGet]

/-- `git commit -m` without a value reaches the missing-message error. -/
theorem gitCommitH_noMsg3 (ctx : RunCtx) (pp : List String) (s : GameState) :
    gitCommitH ctx ["git", "commit", "-m"] pp s =
      formatOutput ctx ["git", "commit", "-m"] pp "error: switch `m` requires a value" .error s := by
  simp [gitCommitH, idxOf, argGet, otruthy]

/-- The successful branch of `git merge <tb>`: both branch lookups truthy and
distinct. -/
theorem gitMergeH_success (ctx : RunCtx) (pp : List String) (s : GameState)
    (tb curId tgtId : String)
    (htb : tb ≠ "")
    (hcur : alookup s.git.branches s.git.HEAD.ref = some curId)
    (htgt : alookup s.git.branches tb = some tgtId)
    (hcne : curId ≠ "") (htne : tgtId ≠ "") (hdiff : curId ≠ tgtId) :
    gitMergeH ctx ["git", "merge", tb] pp s =
      formatOutput ctx ["git", "merge", tb] pp
        ("Merge made by the " ++ sq ++ "ort" ++ sq ++ " strategy.") .success
        { s with git :=
          { s.git with
            commits := s.git.commits ++
              [{ id := ctx.freshId,
                 message := "Merge branch " ++ sq ++ tb ++ sq ++ " into " ++ s.git.HEAD.ref,
                 parentId := some curId, mergeParentId := some tgtId,
                 timestamp := ctx.now, author := "User", treeSnapshot := s.fileSystem }]
            branches := aset s.git.branches s.git.HEAD.ref ctx.freshId } } := by
  simp [gitMergeH, argGet, argStr, otruthy_some htb, htgt, otruthy_some htne, hcur,
    otruthy_some hcne, hdiff]

/-- `git stash push` with non-empty staging appends one entry and clears the
staging list. -/
theorem gitStashH_push (ctx : RunCtx) (pp : List String) (s : GameState)
    (hstage : s.git.staging ≠ []) :
    gitStashH ctx ["git", "stash", "push"] pp s =
      formatOutput ctx ["git", "stash", "push"] pp
        ("Saved working directory and index state \"" ++ ("WIP on " ++ s.git.HEAD.ref) ++ "\"") .success
        { s with git :=
          { s.git with
            stash := s.git.stash ++
              [⟨ctx.freshId, s.git.staging, s.fileSystem, "WIP on " ++ s.git.HEAD.ref, ctx.now⟩]
            staging := [] } } := by
  simp [gitStashH, argGet, jsOrStr, hstage, otruthy]

/-- `git stash pop` on a non-empty stash restores the last entry and drops it
from the stack. -/
theorem gitStashH_pop (ctx : RunCtx) (pp : List String) (s : GameState)
    (rest : List StashEntry) (e : StashEntry)
    (hstash : s.git.stash = rest ++ [e]) :
    gitStashH ctx ["git", "stash", "pop"] pp s =
      formatOutput ctx ["git", "stash", "pop"] pp ("Applied stash: " ++ e.message) .success
        { s with fileSystem := e.fileSnapshot,
                 git := { s.git with staging := e.staging, stash := rest } } := by
  simp [gitStashH, argGet, otruthy, hstash, List.getLast?_concat, List.dropLast_concat]

/-- `git reset --hard <tref>` when the walk resolves to a commit: the tree is
replaced by the snapshot and staging cleared, while the working-directory
trackers and tracked files are untouched. -/
theorem gitResetH_hard (ctx : RunCtx) (pp : List String) (s : GameState) (tref w : String)
    (c : Commit)
    (htref : tref ≠ "") (hres : resetResolve s tref = w) (hw : w ≠ "")
    (hc : findCommit s.git.commits w = some c) :
    ∃ g2 : GitState,
      gitResetH ctx ["git", "reset", "--hard", tref] pp s =
        formatOutput ctx ["git", "reset", "--hard", tref] pp ("HEAD is now at " ++ w) .success
          { s with fileSystem := c.treeSnapshot, git := g2 } ∧
      g2.staging = [] ∧ g2.workingDirectory = s.git.workingDirectory ∧
      g2.trackedFiles = s.git.trackedFiles ∧ g2.repoInitialized = s.git.repoInitialized := by
  by_cases hht : s.git.HEAD.type = .branch
  · refine ⟨{ s.git with branches := aset s.git.branches s.git.HEAD.ref w, staging := [] },
      ?_, rfl, rfl, rfl, rfl⟩
    simp [gitResetH, argGet, jsOrStr, htref, hres, hw, hc, hht]
  · refine ⟨{ s.git with HEAD := ⟨.commit, w⟩, staging := [] }, ?_, rfl, rfl, rfl, rfl⟩
    simp [gitResetH, argGet, jsOrStr, htref, hres, hw, hc, hht]

/-- Every line of the status header block is a header or plain line. -/
theorem statusHeaderLines_types (s : GameState) :
    ∀ l ∈ statusHeaderLines s, l.type = .header ∨ l.type = .normal := by
  intro l hl
  unfold statusHeaderLines at hl
  dsimp only at hl
  repeat' split at hl
  all_goals simp_all [List.mem_cons]
  all_goals first
    | (rcases hl with h | h)
    | skip
  all_goals simp_all

/-- With empty staging, empty working-directory trackers and every file of
the tree tracked, `renderGitStatus` is the header block followed by the
clean-tree closing line. -/
theorem renderGitStatus_clean (s : GameState)
    (hstage : s.git.staging = [])
    (hmod : s.git.workingDirectory.modified = [])
    (hdel : s.git.workingDirectory.deleted = [])
    (huntr : ∀ f ∈ filesInProject s.fileSystem, s.git.trackedFiles.contains f = true) :
    renderGitStatus s = statusHeaderLines s ++
      [⟨"", .normal, none⟩, ⟨"nothing to commit, working tree clean", .normal, none⟩] := by
  unfold renderGitStatus
  simp only [hstage, hmod, hdel]
  have hfilter : ∀ p : String → Bool,
      (∀ f ∈ filesInProject s.fileSystem, p f = false) →
      (filesInProject s.fileSystem).filter p = [] := by
    intro p hp
    rw [List.filter_eq_nil]
    intro f hf
    simp [hp f hf]
  rw [hfilter _ (fun f hf => by
    have h2 := huntr f hf
    simp only [h2, List.contains, List.elem_nil, Bool.not_false, Bool.not_true,
      Bool.true_and, Bool.and_false, Bool.false_and, Bool.and_true])]
  simp

/-! ## The claims -/

/-- C1 (amended): a failing command leaves the state unchanged on every field
except the `lastCommandOutput` scratch field, which the output formatter
overwrites even on errors. -/
theorem C1_failure_frame (ctx : RunCtx) (cmd : String) (s : GameState)
    (h : (runSingleCommand ctx cmd s).type = .error) :
    frameExceptLast s (runSingleCommand ctx cmd s).newState :=
  runSingleCommand_error_frame_aux ctx cmd s h

/-- Witness for C1: `cat missing.txt` on the initial state fails and leaves
everything but `lastCommandOutput` unchanged. -/
theorem C1_witness :
    (runSingleCommand ctx0 "cat missing.txt" INITIAL_STATE).type = .error ∧
    frameExceptLast INITIAL_STATE (runSingleCommand ctx0 "cat missing.txt" INITIAL_STATE).newState :=
  ⟨by decide, C1_failure_frame ctx0 "cat missing.txt" INITIAL_STATE (by decide)⟩

/-- Counterexample to C1 as stated: the failing `cat` mutates the
`lastCommandOutput` field of the returned snapshot, so the snapshot is not
identical to the input state. -/
theorem C1_counterexample :
    (runSingleCommand ctx0 "cat missing.txt" INITIAL_STATE).type = .error ∧
    (runSingleCommand ctx0 "cat missing.txt" INITIAL_STATE).newState.lastCommandOutput ≠
      INITIAL_STATE.lastCommandOutput := by
  decide

/-- C2 fails in the code: after `git init; git add readme.md;
git commit -m msg; git reset --hard zzz` the branch table maps `main` to the
non-empty string `zzz`, yet no commit has that id — `git reset` installs an
unresolved ref without validation. -/
theorem C2_reset_dangling :
    alookup c2State.git.branches "main" = some "zzz" ∧
    ("zzz" : String) ≠ "" ∧
    ((c2State.git.commits.map Commit.id).contains "zzz") = false := by
  decide

/-- C3: a successful `git push <remote> <branch>` of a branch at a non-empty
commit id sets the remote branch pointer to that id and copies every commit
reachable from it (over `parentId` and `mergeParentId`) into the remote. -/
theorem C3_push_covers (ctx : RunCtx) (pp : List String) (s : GameState)
    (rn b : String) (remote : RemoteRepo) (cid : String)
    (hinit : s.git.repoInitialized = true)
    (hrn : rn ≠ "") (hrnu : rn ≠ "-u") (hb : b ≠ "")
    (hr : alookup s.git.remotes rn = some remote)
    (hcid : alookup s.git.branches b = some cid) (hne : cid ≠ "") :
    ∃ remote2,
      alookup (runParsed ctx ["git", "push", rn, b] pp s).newState.git.remotes rn = some remote2 ∧
      alookup remote2.branches b = some cid ∧
      ∀ c ∈ s.git.commits, ReachesId s.git.commits cid c.id →
        ∃ c2 ∈ remote2.commits, c2.id = c.id := by
  rw [runParsed_git, gitCmd_push ctx pp s [rn, b] hinit]
  have hdis : gitPushH ctx ["git", "push", rn, b] pp s =
      pushCore ctx ["git", "push", rn, b] pp (some rn) (some b) s := by
    simp [gitPushH, argGet, hrnu, otruthy_some hb]
  rw [hdis]
  exact pushCore_spec ctx _ pp s rn b remote cid hrn hb hr hcid hne

/-- Witness for C3: pushing `main` (one commit) to the empty remote
`origin`. -/
theorem C3_witness :
    pushWitState.git.repoInitialized = true ∧
    ("origin" : String) ≠ "" ∧ ("origin" : String) ≠ "-u" ∧ ("main" : String) ≠ "" ∧
    alookup pushWitState.git.remotes "origin" = some originWit ∧
    alookup pushWitState.git.branches "main" = some "c1" ∧
    ("c1" : String) ≠ "" ∧
    ∃ remote2,
      alookup (runParsed ctx0 ["git", "push", "origin", "main"] [] pushWitState).newState.git.remotes
        "origin" = some remote2 ∧
      alookup remote2.branches "main" = some "c1" ∧
      ∀ c ∈ pushWitState.git.commits, ReachesId pushWitState.git.commits "c1" c.id →
        ∃ c2 ∈ remote2.commits, c2.id = c.id :=
  ⟨rfl, by decide, by decide, by decide, rfl, by decide, by decide,
    C3_push_covers ctx0 [] pushWitState "origin" "main" originWit "c1" rfl (by decide) (by decide)
      (by decide) rfl (by decide) (by decide)⟩

/-- C4: a successful `git merge <tb>` (both branches at distinct non-empty
commits) appends exactly one commit carrying both `parentId` (the acting
branch tip) and `mergeParentId` (the target tip), and points the acting
branch at it. -/
theorem C4_merge (ctx : RunCtx) (pp : List String) (s : GameState) (tb curId tgtId : String)
    (hinit : s.git.repoInitialized = true)
    (htb : tb ≠ "")
    (hcur : alookup s.git.branches s.git.HEAD.ref = some curId)
    (htgt : alookup s.git.branches tb = some tgtId)
    (hcne : curId ≠ "") (htne : tgtId ≠ "") (hdiff : curId ≠ tgtId) :
    ∃ mc : Commit,
      (runParsed ctx ["git", "merge", tb] pp s).newState.git.commits = s.git.commits ++ [mc] ∧
      mc.parentId = some curId ∧
      mc.mergeParentId = some tgtId ∧
      alookup (runParsed ctx ["git", "merge", tb] pp s).newState.git.branches s.git.HEAD.ref =
        some mc.id := by
  rw [runParsed_git, gitCmd_merge ctx pp s [tb] hinit,
    gitMergeH_success ctx pp s tb curId tgtId htb hcur htgt hcne htne hdiff]
  refine ⟨⟨ctx.freshId, "Merge branch " ++ sq ++ tb ++ sq ++ " into " ++ s.git.HEAD.ref,
    some curId, some tgtId, ctx.now, "User", s.fileSystem⟩, ?_, rfl, rfl, ?_⟩
  · rw [formatOutput_git]
  · rw [formatOutput_git]
    exact alookup_aset_self _ _ _

/-- Witness for C4: merging `feature` (at `c2`) into `main` (at `c1`). -/
theorem C4_witness :
    mergeWitState.git.repoInitialized = true ∧
    ("feature" : String) ≠ "" ∧
    alookup mergeWitState.git.branches mergeWitState.git.HEAD.ref = some "c1" ∧
    alookup mergeWitState.git.branches "feature" = some "c2" ∧
    ("c1" : String) ≠ "" ∧ ("c2" : String) ≠ "" ∧ ("c1" : String) ≠ "c2" ∧
    ∃ mc : Commit,
      (runParsed ctx0 ["git", "merge", "feature"] [] mergeWitState).newState.git.commits =
        mergeWitState.git.commits ++ [mc] ∧
      mc.parentId = some "c1" ∧
      mc.mergeParentId = some "c2" ∧
      alookup (runParsed ctx0 ["git", "merge", "feature"] [] mergeWitState).newState.git.branches
        mergeWitState.git.HEAD.ref = some mc.id :=
  ⟨rfl, by decide, by decide, by decide, by decide, by decide, by decide,
    C4_merge ctx0 [] mergeWitState "feature" "c1" "c2" rfl (by decide) (by decide) (by decide)
      (by decide) (by decide) (by decide)⟩

/-- C5 (amended): after a succeeding `git reset --hard <tref>`, `git status`
reports a clean working tree provided the working-directory trackers were
empty and every file of the target snapshot is tracked — conditions the
original claim omits, because the reset clears only the staging list. -/
theorem C5_reset_hard_clean_status (ctx ctx2 : RunCtx) (pp pp2 : List String) (s : GameState)
    (tref w : String) (c : Commit)
    (hinit : s.git.repoInitialized = true)
    (htref : tref ≠ "")
    (hres : resetResolve s tref = w)
    (hw : w ≠ "")
    (hc : findCommit s.git.commits w = some c)
    (hmod : s.git.workingDirectory.modified = [])
    (hdel : s.git.workingDirectory.deleted = [])
    (htracked : ∀ f ∈ filesInProject c.treeSnapshot, s.git.trackedFiles.contains f = true) :
    ∃ lines,
      (runParsed ctx2 ["git", "status"] pp2
          (runParsed ctx ["git", "reset", "--hard", tref] pp s).newState).type = .gitStatus ∧
      (runParsed ctx2 ["git", "status"] pp2
          (runParsed ctx ["git", "reset", "--hard", tref] pp s).newState).structured = some lines ∧
      lines.getLast? = some ⟨"nothing to commit, working tree clean", .normal, none⟩ ∧
      ∀ l ∈ lines, l.type ≠ .staged ∧ l.type ≠ .modified ∧ l.type ≠ .deleted ∧
        l.type ≠ .untracked := by
  obtain ⟨g2, heq, hstg, hwd, htf, hri⟩ := gitResetH_hard ctx pp s tref w c htref hres hw hc
  rw [runParsed_git ctx pp s ("reset" :: "--hard" :: [tref]),
    gitCmd_reset ctx pp s ["--hard", tref] hinit, heq,
    formatOutput_eval ctx _ pp _ _ _
      (fun u => redirectWrite_git4 ctx _ u "reset" "--hard" tref (by decide) (by decide)
        (by decide) (by decide))]
  set s1 : GameState :=
    setLast { s with fileSystem := c.treeSnapshot, git := g2 }
      (grepPipe pp ("HEAD is now at " ++ w) .success) with hs1
  have hinit1 : s1.git.repoInitialized = true := by
    show g2.repoInitialized = true
    rw [hri]
    exact hinit
  rw [runParsed_git ctx2 pp2 s1 ("status" :: []), gitCmd_status ctx2 pp2 s1 [] hinit1]
  have hclean : renderGitStatus s1 = statusHeaderLines s1 ++
      [⟨"", .normal, none⟩, ⟨"nothing to commit, working tree clean", .normal, none⟩] := by
    apply renderGitStatus_clean
    · exact hstg
    · show g2.workingDirectory.modified = []
      rw [hwd]
      exact hmod
    · show g2.workingDirectory.deleted = []
      rw [hwd]
      exact hdel
    · show ∀ f ∈ filesInProject c.treeSnapshot, g2.trackedFiles.contains f = true
      rw [htf]
      exact htracked
  refine ⟨renderGitStatus s1, rfl, rfl, ?_, ?_⟩
  · rw [hclean]
    rw [show statusHeaderLines s1 ++
        [(⟨"", .normal, none⟩ : TermLine), ⟨"nothing to commit, working tree clean", .normal, none⟩] =
        (statusHeaderLines s1 ++ [⟨"", .normal, none⟩]) ++
          [⟨"nothing to commit, working tree clean", .normal, none⟩] by simp]
    exact List.getLast?_concat _
  · intro l hl
    rw [hclean] at hl
    rcases List.mem_append.mp hl with h | h
    · rcases statusHeaderLines_types s1 l h with h2 | h2 <;> simp [h2]
    · simp only [List.mem_cons, List.mem_singleton, List.not_mem_nil, or_false] at h
      rcases h with h | h
      · rw [h]
        simp
      · rw [h]
        simp

/-- Witness for C5: reset to the only commit of a fully tracked tree, then
status. -/
theorem C5_witness :
    c5WitPre.git.repoInitialized = true ∧
    ("HEAD" : String) ≠ "" ∧
    resetResolve c5WitPre "HEAD" = "c1" ∧
    ("c1" : String) ≠ "" ∧
    findCommit c5WitPre.git.commits "c1" = some c5CommitWit ∧
    c5WitPre.git.workingDirectory.modified = [] ∧
    c5WitPre.git.workingDirectory.deleted = [] ∧
    (∀ f ∈ filesInProject c5CommitWit.treeSnapshot,
      c5WitPre.git.trackedFiles.contains f = true) ∧
    ∃ lines,
      (runParsed ctx0 ["git", "status"] []
          (runParsed ctx0 ["git", "reset", "--hard", "HEAD"] [] c5WitPre).newState).type =
        .gitStatus ∧
      (runParsed ctx0 ["git", "status"] []
          (runParsed ctx0 ["git", "reset", "--hard", "HEAD"] [] c5WitPre).newState).structured =
        some lines ∧
      lines.getLast? = some ⟨"nothing to commit, working tree clean", .normal, none⟩ ∧
      ∀ l ∈ lines, l.type ≠ .staged ∧ l.type ≠ .modified ∧ l.type ≠ .deleted ∧
        l.type ≠ .untracked :=
  ⟨by decide, by decide, by decide, by decide, rfl, by decide, by decide, by decide,
    C5_reset_hard_clean_status ctx0 ctx0 [] [] c5WitPre "HEAD" "c1" c5CommitWit (by decide)
      (by decide) (by decide) (by decide) rfl (by decide) (by decide) (by decide)⟩

/-- Counterexample to C5 as stated: with an untracked file in the snapshot,
`git reset --hard HEAD` succeeds yet the following `git status` shows an
Untracked-files section and no clean-tree closing line. -/
theorem C5_counterexample :
    (runSingleCommand ctx0 "git reset --hard HEAD" c5CtrPre).type = .success ∧
    ((runSingleCommand ctx0 "git status" c5CtrPost).structured.getD []).contains
      ⟨"Untracked files:", .header, some ttUntracked⟩ = true ∧
    ((runSingleCommand ctx0 "git status" c5CtrPost).structured.getD []).contains
      ⟨"nothing to commit, working tree clean", .normal, none⟩ = false := by
  decide

/-- C6: with non-empty staging, `git stash push` then `git stash pop`
restores the staging list, the filesystem tree and the stash stack to their
pre-push values. -/
theorem C6_stash_roundtrip (ctx ctx2 : RunCtx) (pp pp2 : List String) (s : GameState)
    (hinit : s.git.repoInitialized = true)
    (hstage : s.git.staging ≠ []) :
    (runParsed ctx2 ["git", "stash", "pop"] pp2
        (runParsed ctx ["git", "stash", "push"] pp s).newState).newState.git.staging =
      s.git.staging ∧
    (runParsed ctx2 ["git", "stash", "pop"] pp2
        (runParsed ctx ["git", "stash", "push"] pp s).newState).newState.fileSystem =
      s.fileSystem ∧
    (runParsed ctx2 ["git", "stash", "pop"] pp2
        (runParsed ctx ["git", "stash", "push"] pp s).newState).newState.git.stash =
      s.git.stash := by
  have hpush : (runParsed ctx ["git", "stash", "push"] pp s).newState =
      setLast
        { s with git :=
          { s.git with
            stash := s.git.stash ++
              [⟨ctx.freshId, s.git.staging, s.fileSystem, "WIP on " ++ s.git.HEAD.ref, ctx.now⟩]
            staging := [] } }
        (grepPipe pp
          ("Saved working directory and index state \"" ++ ("WIP on " ++ s.git.HEAD.ref) ++ "\"")
          .success) := by
    rw [runParsed_git, gitCmd_stash ctx pp s ["push"] hinit, gitStashH_push ctx pp s hstage,
      formatOutput_eval ctx _ pp _ _ _
        (fun u => redirectWrite_git3 ctx _ u "stash" "push" (by decide) (by decide))]
  rw [hpush]
  set s1 : GameState :=
    setLast
      { s with git :=
        { s.git with
          stash := s.git.stash ++
            [⟨ctx.freshId, s.git.staging, s.fileSystem, "WIP on " ++ s.git.HEAD.ref, ctx.now⟩]
          staging := [] } }
      (grepPipe pp
        ("Saved working directory and index state \"" ++ ("WIP on " ++ s.git.HEAD.ref) ++ "\"")
        .success) with hs1
  have hinit1 : s1.git.repoInitialized = true := hinit
  have hstash1 : s1.git.stash = s.git.stash ++
      [⟨ctx.freshId, s.git.staging, s.fileSystem, "WIP on " ++ s.git.HEAD.ref, ctx.now⟩] := rfl
  rw [runParsed_git, gitCmd_stash ctx2 pp2 s1 ["pop"] hinit1,
    gitStashH_pop ctx2 pp2 s1 s.git.stash
      ⟨ctx.freshId, s.git.staging, s.fileSystem, "WIP on " ++ s.git.HEAD.ref, ctx.now⟩ hstash1,
    formatOutput_eval ctx2 _ pp2 _ _ _
      (fun u => redirectWrite_git3 ctx2 _ u "stash" "pop" (by decide) (by decide))]
  exact ⟨rfl, rfl, rfl⟩

/-- Witness for C6: the round trip on a repository with one staged file. -/
theorem C6_witness :
    stashWitState.git.repoInitialized = true ∧
    stashWitState.git.staging ≠ [] ∧
    ((runParsed ctx0 ["git", "stash", "pop"] []
        (runParsed ctx0 ["git", "stash", "push"] [] stashWitState).newState).newState.git.staging =
      stashWitState.git.staging ∧
    (runParsed ctx0 ["git", "stash", "pop"] []
        (runParsed ctx0 ["git", "stash", "push"] [] stashWitState).newState).newState.fileSystem =
      stashWitState.fileSystem ∧
    (runParsed ctx0 ["git", "stash", "pop"] []
        (runParsed ctx0 ["git", "stash", "push"] [] stashWitState).newState).newState.git.stash =
      stashWitState.git.stash) :=
  ⟨rfl, by decide, C6_stash_roundtrip ctx0 ctx0 [] [] stashWitState rfl (by decide)⟩

/-- C7: `git commit -m <msg>` on an initialized repository with empty staging
creates no commit — commits, branches and HEAD are unchanged — and returns
the nothing-to-commit info result. -/
theorem C7_commit_empty_staging (ctx : RunCtx) (pp : List String) (s : GameState) (msg : String)
    (hinit : s.git.repoInitialized = true)
    (hstage : s.git.staging = [])
    (hmsg : msg ≠ "")
    (hpp : ¬ pp.length > 1) :
    (runParsed ctx ["git", "commit", "-m", msg] pp s).output = "nothing to commit, working tree clean" ∧
    (runParsed ctx ["git", "commit", "-m", msg] pp s).type = .info ∧
    (runParsed ctx ["git", "commit", "-m", msg] pp s).newState.git.commits = s.git.commits ∧
    (runParsed ctx ["git", "commit", "-m", msg] pp s).newState.git.branches = s.git.branches ∧
    (runParsed ctx ["git", "commit", "-m", msg] pp s).newState.git.HEAD = s.git.HEAD := by
  rw [runParsed_git, gitCmd_commit ctx pp s ("-m" :: [msg]) hinit,
    gitCommitH_nothing ctx pp s msg hstage hmsg,
    formatOutput_eval ctx _ pp _ _ s
      (fun u => redirectWrite_git4 ctx s u "commit" "-m" msg (by decide) (by decide) (by decide) (by decide)),
    grepPipe_short pp _ _ hpp]
  exact ⟨rfl, rfl, rfl, rfl, rfl⟩

/-- Witness for C7: an empty-staging commit on the freshly initialized
repository. -/
theorem C7_witness :
    initializedState.git.repoInitialized = true ∧
    initializedState.git.staging = [] ∧
    ("add docs" : String) ≠ "" ∧
    ¬ ([] : List String).length > 1 ∧
    ((runParsed ctx0 ["git", "commit", "-m", "add docs"] [] initializedState).output =
        "nothing to commit, working tree clean" ∧
      (runParsed ctx0 ["git", "commit", "-m", "add docs"] [] initializedState).type = .info ∧
      (runParsed ctx0 ["git", "commit", "-m", "add docs"] [] initializedState).newState.git.commits =
        initializedState.git.commits ∧
      (runParsed ctx0 ["git", "commit", "-m", "add docs"] [] initializedState).newState.git.branches =
        initializedState.git.branches ∧
      (runParsed ctx0 ["git", "commit", "-m", "add docs"] [] initializedState).newState.git.HEAD =
        initializedState.git.HEAD) :=
  ⟨rfl, rfl, by decide, by decide,
    C7_commit_empty_staging ctx0 [] initializedState "add docs" rfl rfl (by decide) (by decide)⟩

/-- C8 fails in the code: `resolvePath` skips a `..` segment exactly like `.`
instead of ascending, so `a/../b` fails to resolve (it looks for `b` inside
`a`) while `b` resolves — they do not name the same node. -/
theorem C8_dotdot_no_ascent :
    (resNode fs8 (resolvePath fs8 "a/../b" "/")).isNone = true ∧
    (resNode fs8 (resolvePath fs8 "b" "/")).isSome = true := by
  decide

/-- C9 (amended): for every start id and commit list — cyclic or dangling
data included — the ancestor walk of push terminates (totality of
`getAncestors` is established by its termination proof) and returns exactly
the ids reachable over `parentId` / `mergeParentId` edges, provided the
start id is truthy; the loop guard skips a falsy start id, so an empty start
id returns the empty set rather than its own reachable set. -/
theorem C9_getAncestors_reachable (commitId : String) (cs : List Commit) (i : String) :
    i ∈ getAncestors commitId cs ↔ (commitId ≠ "" ∧ ReachesId cs commitId i) :=
  getAncestors_iff commitId cs i

/-- Counterexample to C9 as stated: at the empty (falsy) start id the walk
returns the empty set, although the start id trivially reaches itself — so
the returned set is not exactly the reachable set for every start id. -/
theorem C9_counterexample :
    getAncestors "" [] = [] ∧ ReachesId [] "" "" :=
  ⟨getAncestors_empty [], ReachesId.refl⟩

/-- C10: `git commit` without `-m`, or with `-m` but no value, reports the
missing-message error and creates no commit for every initialized state —
the message check precedes the empty-staging check. -/
theorem C10_commit_missing_message (ctx : RunCtx) (pp : List String) (s : GameState)
    (hinit : s.git.repoInitialized = true) :
    ((runParsed ctx ["git", "commit"] pp s).output = "error: switch `m` requires a value" ∧
     (runParsed ctx ["git", "commit"] pp s).type = .error ∧
     (runParsed ctx ["git", "commit"] pp s).newState.git.commits = s.git.commits) ∧
    ((runParsed ctx ["git", "commit", "-m"] pp s).output = "error: switch `m` requires a value" ∧
     (runParsed ctx ["git", "commit", "-m"] pp s).type = .error ∧
     (runParsed ctx ["git", "commit", "-m"] pp s).newState.git.commits = s.git.commits) := by
  constructor
  · rw [runParsed_git, gitCmd_commit ctx pp s [] hinit, gitCommitH_noMsg2 ctx pp s,
      formatOutput_eval ctx _ pp _ _ s
        (fun u => redirectWrite_git2 ctx s u "commit" (by decide) (by decide)),
      grepPipe_error pp _]
    exact ⟨rfl, rfl, rfl⟩
  · rw [runParsed_git, gitCmd_commit ctx pp s ["-m"] hinit, gitCommitH_noMsg3 ctx pp s,
      formatOutput_eval ctx _ pp _ _ s
        (fun u => redirectWrite_git3 ctx s u "commit" "-m" (by decide) (by decide)),
      grepPipe_error pp _]
    exact ⟨rfl, rfl, rfl⟩

/-- Witness for C10: both malformed commit invocations on the freshly
initialized repository (whose staging is empty). -/
theorem C10_witness :
    initializedState.git.repoInitialized = true ∧
    (((runParsed ctx0 ["git", "commit"] [] initializedState).output = "error: switch `m` requires a value" ∧
      (runParsed ctx0 ["git", "commit"] [] initializedState).type = .error ∧
      (runParsed ctx0 ["git", "commit"] [] initializedState).newState.git.commits =
        initializedState.git.commits) ∧
     ((runParsed ctx0 ["git", "commit", "-m"] [] initializedState).output = "error: switch `m` requires a value" ∧
      (runParsed ctx0 ["git", "commit", "-m"] [] initializedState).type = .error ∧
      (runParsed ctx0 ["git", "commit", "-m"] [] initializedState).newState.git.commits =
        initializedState.git.commits)) :=
  ⟨rfl, C10_commit_missing_message ctx0 [] initializedState rfl⟩

end DevQuest
